import Mathlib

/-!
Verification development for the storybook-generation pipeline in
`story_generator.py` (helper module of the STORYBOOK_APP_GENAI repository).
Python strings are modelled as `List Char`; Python-level failures
(exceptions) are modelled with `Except PyErr`; file-system and provider
side effects of `process_text` are modelled with an explicit event trace.
-/

/-- Errors corresponding to the Python exceptions the pipeline can raise. -/
inductive PyErr where
  | jsonDecodeError
  | keyError
  | indexError
  | typeError
  | providerError
  | compositeError
deriving DecidableEq, Repr

/-- The opening-brace character. -/
def lb : Char := Char.ofNat 123

/-- The closing-brace character. -/
def rb : Char := Char.ofNat 125

/-- The apostrophe character. -/
def apos : Char := Char.ofNat 39

/-- The double-quote character. -/
def qc : Char := Char.ofNat 34

/-- Model of Python `str.find(c)` restricted to a single character:
index of the first occurrence, as a `Nat` option. -/
def pyFindCharNat (s : List Char) (c : Char) : Option Nat :=
  match s with
  | [] => none
  | x :: rest => if x = c then some 0 else (pyFindCharNat rest c).map (· + 1)

/-- Model of Python `str.find(c)`: first index, or `-1` when absent. -/
def pyFindChar (s : List Char) (c : Char) : Int :=
  match pyFindCharNat s c with
  | some n => (n : Int)
  | none => -1

/-- Model of Python `str.rfind(c)`: index of the last occurrence as a
`Nat` option. -/
def pyRFindCharNat (s : List Char) (c : Char) : Option Nat :=
  match s with
  | [] => none
  | x :: rest =>
    match pyRFindCharNat rest c with
    | some i => some (i + 1)
    | none => if x = c then some 0 else none

/-- Model of Python `str.rfind(c)`: last index, or `-1` when absent. -/
def pyRFindChar (s : List Char) (c : Char) : Int :=
  match pyRFindCharNat s c with
  | some n => (n : Int)
  | none => -1

/-- Resolve a Python slice endpoint against a sequence of length `n`:
negative indices count from the end and the result is clamped into
`[0, n]`. -/
def pySliceBound (n : Nat) (a : Int) : Int :=
  if a < 0 then max ((n : Int) + a) 0 else min a (n : Int)

/-- Model of Python slicing `s[a:b]` (step 1) with negative-index and
clamping semantics. -/
def pySliceStr (s : List Char) (a b : Int) : List Char :=
  (s.drop (pySliceBound s.length a).toNat).take
    (pySliceBound s.length b - pySliceBound s.length a).toNat

/-- Model of Python list slicing `l[a:b]` for non-negative bounds. -/
def pySliceList {α : Type} (l : List α) (a b : Nat) : List α :=
  (l.drop a).take (b - a)

/-- First index at which `sep` occurs as a contiguous sublist of `s`
(Python `str.find(sep)` for a non-empty separator). -/
def findSub (sep : List Char) : List Char → Option Nat
  | [] => if sep.isEmpty then some 0 else none
  | c :: t =>
    if sep.isPrefixOf (c :: t) then some 0
    else (findSub sep t).map (· + 1)

/-- Fueled worker for `pySplit`. -/
def splitOnAux (sep : List Char) : Nat → List Char → List (List Char)
  | 0, s => [s]
  | fuel + 1, s =>
    match findSub sep s with
    | none => [s]
    | some i => s.take i :: splitOnAux sep fuel (s.drop (i + sep.length))

/-- Model of Python `str.split(sep)` for a non-empty separator. -/
def pySplit (s sep : List Char) : List (List Char) :=
  splitOnAux sep (s.length + 1) s

/-- The sentence delimiter `". "` used by `process_text`. -/
def dotSpace : List Char := ['.', ' ']

/-- Parsed JSON values, the result type of the `json.loads` model.
Numbers are kept as their raw digit string since the pipeline never
computes with them. -/
inductive Json where
  | null
  | bool (b : Bool)
  | num (raw : List Char)
  | str (s : List Char)
  | arr (elems : List Json)
  | obj (fields : List (List Char × Json))
deriving Repr

/-- JSON whitespace characters recognised by the decoder. -/
def jsonWs (c : Char) : Bool :=
  c = ' ' || c = Char.ofNat 9 || c = Char.ofNat 10 || c = Char.ofNat 13

/-- Decode a single-character JSON string escape (the `\uXXXX` form is
not modelled; inputs using it are treated as decode failures). -/
def unescape (c : Char) : Option Char :=
  if c = qc then some qc
  else if c = Char.ofNat 92 then some (Char.ofNat 92)
  else if c = '/' then some '/'
  else if c = 'n' then some (Char.ofNat 10)
  else if c = 't' then some (Char.ofNat 9)
  else if c = 'r' then some (Char.ofNat 13)
  else if c = 'b' then some (Char.ofNat 8)
  else if c = 'f' then some (Char.ofNat 12)
  else none

/-- Parse the body of a JSON string literal (the opening quote already
consumed); returns the decoded text and the remaining input. -/
def parseStringBody : List Char → Option (List Char × List Char)
  | [] => none
  | c :: rest =>
    if c = qc then some ([], rest)
    else if c = Char.ofNat 92 then
      match rest with
      | [] => none
      | e :: rest2 =>
        match unescape e with
        | none => none
        | some d =>
          match parseStringBody rest2 with
          | none => none
          | some (str, rem) => some (d :: str, rem)
    else
      match parseStringBody rest with
      | none => none
      | some (str, rem) => some (c :: str, rem)

/-- Characters that may appear in a JSON number token. -/
def isNumChar (c : Char) : Bool :=
  c.isDigit || c = '-' || c = '+' || c = '.' || c = 'e' || c = 'E'

mutual

/-- Fueled recursive-descent parser for one JSON value; returns the value
and the unconsumed remainder.  The number grammar is looser than the
real decoder (any run of number characters), which the pipeline never
observes since it does not compute with numbers. -/
def parseVal : Nat → List Char → Option (Json × List Char)
  | 0, _ => none
  | fuel + 1, s =>
    match s.dropWhile jsonWs with
    | [] => none
    | c :: rest =>
      if c = qc then
        match parseStringBody rest with
        | none => none
        | some (str, rem) => some (.str str, rem)
      else if c = lb then
        match (rest.dropWhile jsonWs) with
        | c2 :: rest2 =>
          if c2 = rb then some (.obj [], rest2)
          else
            match parseObjFields fuel rest with
            | none => none
            | some (fs, rem) => some (.obj fs, rem)
        | [] => none
      else if c = '[' then
        match (rest.dropWhile jsonWs) with
        | c2 :: rest2 =>
          if c2 = ']' then some (.arr [], rest2)
          else
            match parseArrElems fuel rest with
            | none => none
            | some (vs, rem) => some (.arr vs, rem)
        | [] => none
      else if ['t', 'r', 'u', 'e'].isPrefixOf (c :: rest) then
        some (.bool true, (c :: rest).drop 4)
      else if ['f', 'a', 'l', 's', 'e'].isPrefixOf (c :: rest) then
        some (.bool false, (c :: rest).drop 5)
      else if ['n', 'u', 'l', 'l'].isPrefixOf (c :: rest) then
        some (.null, (c :: rest).drop 4)
      else if c.isDigit || c = '-' then
        some (.num ((c :: rest).takeWhile isNumChar), (c :: rest).dropWhile isNumChar)
      else none

/-- Parse one or more comma-separated JSON array elements up to `]`. -/
def parseArrElems : Nat → List Char → Option (List Json × List Char)
  | 0, _ => none
  | fuel + 1, s =>
    match parseVal fuel s with
    | none => none
    | some (v, rem) =>
      match rem.dropWhile jsonWs with
      | ',' :: rem2 =>
        match parseArrElems fuel rem2 with
        | none => none
        | some (vs, rem3) => some (v :: vs, rem3)
      | c :: rem2 =>
        if c = ']' then some ([v], rem2) else none
      | [] => none

/-- Parse one or more comma-separated `key : value` object members up to
the closing brace. -/
def parseObjFields : Nat → List Char → Option (List (List Char × Json) × List Char)
  | 0, _ => none
  | fuel + 1, s =>
    match s.dropWhile jsonWs with
    | c :: rest =>
      if c = qc then
        match parseStringBody rest with
        | none => none
        | some (key, rem) =>
          match rem.dropWhile jsonWs with
          | ':' :: rem2 =>
            match parseVal fuel rem2 with
            | none => none
            | some (v, rem3) =>
              match rem3.dropWhile jsonWs with
              | ',' :: rem4 =>
                match parseObjFields fuel rem4 with
                | none => none
                | some (fs, rem5) => some ((key, v) :: fs, rem5)
              | c2 :: rem4 =>
                if c2 = rb then some ([(key, v)], rem4) else none
              | [] => none
          | _ => none
      else none
    | [] => none

end

/-- Model of Python `json.loads`: parse one JSON value and require the
remainder to be whitespace only. -/
def pyJsonLoads (s : List Char) : Option Json :=
  match parseVal (s.length + 1) s with
  | none => none
  | some (v, rem) => if (rem.dropWhile jsonWs).isEmpty then some v else none

/-- Model of Python `dict[key]` subscription on a decoded JSON value:
`KeyError` when the key is absent from an object, `TypeError` when the
value is not an object (string subscription with a string key is also a
`TypeError` in Python).  Duplicate keys resolve to the last binding, as
in the Python decoder. -/
def dictGet (j : Json) (key : List Char) : Except PyErr Json :=
  match j with
  | .obj fields =>
    match (fields.filter (fun kv => kv.1 = key)).getLast? with
    | some kv => .ok kv.2
    | none => .error .keyError
  | _ => .error .typeError

/-- Model of Python `len()` on a decoded JSON value. -/
def pyLen (j : Json) : Except PyErr Nat :=
  match j with
  | .str s => .ok s.length
  | .arr l => .ok l.length
  | .obj f => .ok f.length
  | _ => .error .typeError

/-- Resolve a Python sequence index of a length-`n` sequence: negative
indices count from the end; a still-negative result is out of range. -/
def pyAdjustIdx (n : Nat) (i : Int) : Option Nat :=
  if i < 0 then (if 0 ≤ i + n then some (i + n).toNat else none)
  else some i.toNat

/-- Model of Python integer subscription `x[i]` on a decoded JSON value,
with negative-index semantics and `IndexError` out of bounds. -/
def pyGetIdx (j : Json) (i : Int) : Except PyErr Json :=
  match j with
  | .arr l =>
    pyAdjustIdx l.length i |>.elim (.error .indexError) fun k =>
      match l[k]? with
      | some v => .ok v
      | none => .error .indexError
  | .str s =>
    pyAdjustIdx s.length i |>.elim (.error .indexError) fun k =>
      match s[k]? with
      | some c => .ok (.str [c])
      | none => .error .indexError
  | _ => .error .typeError

mutual

/-- Model of Python `str()` applied to a decoded JSON value, as used by
f-string interpolation.  Containers are rendered structurally; the
exact `repr` quoting of nested elements is simplified, which the
pipeline only reaches for non-string prompt entries. -/
def pyStr : Json → List Char
  | .null => ['N', 'o', 'n', 'e']
  | .bool true => ['T', 'r', 'u', 'e']
  | .bool false => ['F', 'a', 'l', 's', 'e']
  | .num raw => raw
  | .str s => s
  | .arr l => '[' :: pyStrList l ++ [']']
  | .obj f => lb :: pyStrFields f ++ [rb]

/-- Render a list of JSON values separated by `", "`. -/
def pyStrList : List Json → List Char
  | [] => []
  | [v] => pyStr v
  | v :: rest => pyStr v ++ ',' :: ' ' :: pyStrList rest

/-- Render object members separated by `", "`. -/
def pyStrFields : List (List Char × Json) → List Char
  | [] => []
  | [(k, v)] => k ++ ':' :: ' ' :: pyStr v
  | (k, v) :: rest => k ++ ':' :: ' ' :: pyStr v ++ ',' :: ' ' :: pyStrFields rest

end

/-- Coerce a decoded JSON value to a Python `str`, failing with
`TypeError` otherwise (the pipeline applies string operations to the
title and story fields). -/
def pyAsStr (j : Json) : Except PyErr (List Char) :=
  match j with
  | .str s => .ok s
  | _ => .error .typeError

/-- The JSON field names looked up by `extract_story_elements`. -/
def titleKey : List Char := ['t', 'i', 't', 'l', 'e']

/-- The `story` field name. -/
def storyKey : List Char := ['s', 't', 'o', 'r', 'y']

/-- The `moral` field name. -/
def moralKey : List Char := ['m', 'o', 'r', 'a', 'l']

/-- The `imagePrompts` field name. -/
def promptsKey : List Char := "imagePrompts".toList

/-- The substring handed to the JSON decoder by
`extract_story_elements`: the slice of the raw text from the
first opening brace to the last closing brace, via the Python
`find`/`rfind` conventions. -/
def jsonSliceOf (full_text : List Char) : List Char :=
  pySliceStr full_text (pyFindChar full_text lb) (pyRFindChar full_text rb + 1)

/-- Translation of `extract_story_elements` (story_generator.py lines
114-131): slice the raw text from the first opening brace to the last
closing brace, decode it as JSON, and return the `title`, `story`,
`moral` and `imagePrompts` fields.  Decode failures and missing keys
re-raise, modelled as `Except.error`. -/
def extract_story_elements (full_text : List Char) : Except PyErr (Json × Json × Json × Json) :=
  match pyJsonLoads (jsonSliceOf full_text) with
  | none => .error .jsonDecodeError
  | some story_data => do
    let t ← dictGet story_data titleKey
    let s ← dictGet story_data storyKey
    let m ← dictGet story_data moralKey
    let ps ← dictGet story_data promptsKey
    .ok (t, s, m, ps)

/-- The character class of the regex `[?;:%#@*&\^$!<>,\\/]` used to
sanitize titles (story_generator.py line 145). -/
def isSpecialChar (c : Char) : Bool :=
  c = '?' || c = ';' || c = ':' || c = '%' || c = '#' || c = '@' || c = '*' ||
  c = '&' || c = '^' || c = '$' || c = '!' || c = '<' || c = '>' || c = ',' ||
  c = Char.ofNat 92 || c = '/'

/-- Dropping a prefix by predicate never lengthens a list. -/
theorem dropWhile_length_le (p : Char → Bool) (l : List Char) :
    (l.dropWhile p).length ≤ l.length := by
  induction l with
  | nil => simp [List.dropWhile]
  | cons c rest ih =>
    simp only [List.dropWhile]
    split
    · exact Nat.le_succ_of_le ih
    · simp

/-- Fueled worker for `replaceSpecialChars`; the fuel dominates the
input length, so the base case is never reached at the call site. -/
def replaceSpecialCharsAux : Nat → List Char → List Char
  | 0, s => s
  | _ + 1, [] => []
  | fuel + 1, c :: rest =>
    if isSpecialChar c then ' ' :: replaceSpecialCharsAux fuel (rest.dropWhile isSpecialChar)
    else c :: replaceSpecialCharsAux fuel rest

/-- Translation of `re.sub(r'[?;:%#@*&\^$!<>,\\/]+', ' ', s)`: each
maximal run of one or more special characters becomes a single space. -/
def replaceSpecialChars (s : List Char) : List Char :=
  replaceSpecialCharsAux (s.length + 1) s

/-- The fixed text preceding the embedded chunk in the enriched prompt
f-string (story_generator.py lines 157-158). -/
def tmplHead : List Char :=
  "Given the following story for context enclosed between the $ symbol: $".toList

/-- The fixed text between the embedded chunk and the paired prompt in
the enriched prompt f-string, including the literal newline and the 24
spaces of source indentation. -/
def tmplMid : List Char :=
  '$' :: ',' :: Char.ofNat 10 :: List.replicate 24 ' ' ++
  "generate a children".toList ++ apos ::
  "s story book style image with the following prompt: ".toList

/-- The enriched per-page prompt: the f-string of story_generator.py
lines 157-158 applied to a sentence chunk and its paired raw prompt. -/
def enrich (combined : List Char) (p : Json) : List Char :=
  tmplHead ++ combined ++ tmplMid ++ pyStr p

/-- Translation of the per-chunk prompt selection
`image_prompts[i // 3] if i // 3 < len(image_prompts) else image_prompts[-1]`
(story_generator.py line 156). -/
def pagePrompt (prompts : Json) (i : Nat) : Except PyErr Json := do
  let n ← pyLen prompts
  if i / 3 < n then pyGetIdx prompts (Int.ofNat (i / 3))
  else pyGetIdx prompts (-1)

/-- Model of `'. '.join(...)`. -/
def joinDotSpace (l : List (List Char)) : List Char :=
  List.intercalate dotSpace l

/-- Translation of the chunking loop
`for i in range(0, len(sentences), 3)` (story_generator.py lines
152-159): builds `combined_sentences` and `image_prompt_new` in
iteration order; a failing prompt lookup aborts the whole loop, as the
raised `IndexError` does in the source.  The first `Nat` argument is
fuel dominating the iteration count. -/
def buildPages (sentences : List (List Char)) (prompts : Json) :
    Nat → Nat → Except PyErr (List (List Char) × List (List Char))
  | 0, _ => .ok ([], [])
  | fuel + 1, i =>
    if i < sentences.length then do
      let combined := joinDotSpace (pySliceList sentences i (i + 3))
      let p ← pagePrompt prompts i
      let (ts, ps) ← buildPages sentences prompts fuel (i + 3)
      .ok (combined :: ts, enrich combined p :: ps)
    else .ok ([], [])

/-- The chunking loop run from the start of the sentence list, with
fuel dominating the iteration count. -/
def segmentPages (sentences : List (List Char)) (prompts : Json) :
    Except PyErr (List (List Char) × List (List Char)) :=
  buildPages sentences prompts (sentences.length + 1) 0

/-- Python whitespace characters as treated by `textwrap` (space, tab,
newline, vertical tab, form feed, carriage return). -/
def isPyWs (c : Char) : Bool :=
  c = ' ' || c = Char.ofNat 9 || c = Char.ofNat 10 || c = Char.ofNat 11 ||
  c = Char.ofNat 12 || c = Char.ofNat 13

/-- Model of `str.expandtabs()` with tab stops every 8 columns, the
first preprocessing step of `textwrap.fill`. -/
def expandTabs : List Char → Nat → List Char
  | [], _ => []
  | c :: rest, col =>
    if c = Char.ofNat 9 then
      let n := 8 - col % 8
      List.replicate n ' ' ++ expandTabs rest (col + n)
    else if c = Char.ofNat 10 || c = Char.ofNat 13 then c :: expandTabs rest 0
    else c :: expandTabs rest (col + 1)

/-- Fueled worker splitting text into maximal runs of whitespace and of
non-whitespace, the chunk decomposition used by the wrapper.  The
stdlib additionally splits compound words after hyphens
(`break_on_hyphens`); that refinement is not modelled and no pipeline
input in the claims relies on it. -/
def splitChunksAux : Nat → List Char → List (List Char)
  | 0, _ => []
  | _ + 1, [] => []
  | fuel + 1, c :: rest =>
    ((c :: rest).takeWhile (fun x => isPyWs x = isPyWs c)) ::
      splitChunksAux fuel (rest.dropWhile (fun x => isPyWs x = isPyWs c))

/-- Chunk decomposition with fuel dominating the input length. -/
def splitChunks (s : List Char) : List (List Char) :=
  splitChunksAux (s.length + 1) s

/-- Total character length of a list of chunks. -/
def sumLen (l : List (List Char)) : Nat :=
  (l.map List.length).sum

/-- The greedy inner loop of `textwrap._wrap_chunks`: move chunks onto
the current line while the accumulated length stays within `width`;
returns the line chunks and the remaining chunks. -/
def takeGreedy (width : Nat) : Nat → List (List Char) → List (List Char) × List (List Char)
  | _, [] => ([], [])
  | curLen, c :: rest =>
    if curLen + c.length ≤ width then
      let (a, b) := takeGreedy width (curLen + c.length) rest
      (c :: a, b)
    else ([], c :: rest)

/-- Drop a final all-whitespace chunk from the current line
(`drop_whitespace=True` behaviour at the right edge). -/
def dropTrailingWs (curLine : List (List Char)) : List (List Char) :=
  match curLine.getLast? with
  | some last => if last.all isPyWs then curLine.dropLast else curLine
  | none => curLine

/-- Model of `textwrap._handle_long_word` with `break_long_words=True`:
when the next chunk alone exceeds the width, split it at the remaining
space on the current line (at least one character when the width is
degenerate). -/
def handleLong (width : Nat) (gr : List (List Char) × List (List Char)) :
    List (List Char) × List (List Char) :=
  match gr with
  | (cl, []) => (cl, [])
  | (cl, c :: rest2) =>
    if width < c.length then
      (cl ++ [c.take (if width < 1 then 1 else width - sumLen cl)],
        c.drop (if width < 1 then 1 else width - sumLen cl) :: rest2)
    else (cl, c :: rest2)

/-- One outer iteration of `textwrap._wrap_chunks`: fill a line
greedily, split a long word if one blocks progress, drop a trailing
whitespace chunk, and emit the line when non-empty; returns the
optional emitted line and the remaining chunks. -/
def wrapLine (width : Nat) (chunks1 : List (List Char)) :
    Option (List Char) × List (List Char) :=
  let hl := handleLong width (takeGreedy width 0 chunks1)
  if (dropTrailingWs hl.1).isEmpty then (none, hl.2)
  else (some (dropTrailingWs hl.1).flatten, hl.2)

/-- Fueled model of `textwrap._wrap_chunks` with the stdlib defaults
(`drop_whitespace=True`, `break_long_words=True`): produce the list of
output lines.  `first` records whether no line has been emitted yet
(the stdlib only discards a leading whitespace chunk once `lines` is
non-empty). -/
def wrapChunks (width : Nat) : Nat → Bool → List (List Char) → List (List Char)
  | 0, _, _ => []
  | _ + 1, _, [] => []
  | fuel + 1, first, chunk0 :: chunks0 =>
    match wrapLine width
      (if first = false && chunk0.all isPyWs then chunks0 else chunk0 :: chunks0) with
    | (none, rest) => wrapChunks width fuel first rest
    | (some line, rest) => line :: wrapChunks width fuel false rest

/-- Model of `textwrap.wrap(text, width)` with default options: munge
whitespace (tabs expanded, every whitespace character replaced by a
space), split into chunks and wrap greedily. -/
def textwrapWrap (text : List Char) (width : Nat) : List (List Char) :=
  let munged := (expandTabs text 0).map (fun c => if isPyWs c then ' ' else c)
  wrapChunks width (2 * munged.length + 4) true (splitChunks munged)

/-- Model of `textwrap.fill(text, width)`: the wrapped lines joined with
newlines. -/
def textwrapFill (text : List Char) (width : Nat) : List Char :=
  List.intercalate [Char.ofNat 10] (textwrapWrap text width)

/-- The wrapped overlay text computed by `add_text_to_image`
(story_generator.py line 84): `textwrap.fill(text, width=40)`. -/
def wrapped_text (text : List Char) : List Char :=
  textwrapFill text 40

/-- The abstract environment of one `process_text` run: the outcome of
the external image provider per call, the outcome of the external
drawing library per compositing call, and the epoch-seconds clock
`int(time.time())`. -/
structure PipelineEnv where
  generateImageFn : List Char → List Char → List Char → List Char → Nat → Option (List Char)
  compositeFails : List Char → List Char → List Char → Bool
  now : Nat

/-- File-system and provider effects performed by `process_text`,
recorded in program order.  `removeTree` is the directory-cleanup
effect of `shutil.rmtree`; it is part of the effect vocabulary so that
its absence from every trace is expressible. -/
inductive FsEvent where
  | mkdirP (path : List Char)
  | callGenerateImage (model prompt negative title : List Char) (index : Nat)
  | callAddText (imagePath text outPath : List Char)
  | moveFile (src dst : List Char)
  | removeTree (path : List Char)
deriving DecidableEq, Repr

/-- The `IMAGE_MODELS` constant (story_generator.py line 34). -/
def IMAGE_MODELS : List (List Char) :=
  ["prompthero/openjourney".toList, "stabilityai/stable-diffusion-xl-base-1.0".toList]

/-- Modelled from the spec: the body of `generate_image` is withheld in
the source (its definition is the placeholder `pass`); per spec
sections 2 and 6 the ImageProvider, given a model identifier and
prompts, returns a saved image path or fails with a provider error.
The outcome is supplied by the environment. -/
def generate_image (env : PipelineEnv) (model prompt negative_prompt title : List Char)
    (image_index : Nat) : Except PyErr (List Char) :=
  match env.generateImageFn model prompt negative_prompt title image_index with
  | some path => .ok path
  | none => .error .providerError

/-- Translation of `add_text_to_image` (story_generator.py lines
62-111): the PIL drawing work is external and may raise (abstracted by
`env.compositeFails`); on success the function returns `output_path`
(source line 107). -/
def add_text_to_image (env : PipelineEnv) (image_path text output_path : List Char) :
    Except PyErr (List Char) :=
  if env.compositeFails image_path text output_path then .error .compositeError
  else .ok output_path

/-- The per-index output file name `f"image_new_{i}.png"`. -/
def imageNewName (i : Nat) : List Char :=
  "image_new_".toList ++ (toString i).toList ++ ".png".toList

/-- Translation of the image-generation loop (story_generator.py lines
166-168): one provider call per enriched prompt, in order; a provider
failure raises and aborts the loop.  The trace records every call that
was issued. -/
def genLoop (env : PipelineEnv) (title : List Char) :
    List (List Char) → Nat → Except PyErr (List (List Char)) × List FsEvent
  | [], _ => (.ok [], [])
  | p :: rest, i =>
    let model := IMAGE_MODELS.headI
    let ev := FsEvent.callGenerateImage model p [] title i
    match generate_image env model p [] title i with
    | .error e => (.error e, [ev])
    | .ok path =>
      match genLoop env title rest (i + 1) with
      | (.error e, evs) => (.error e, ev :: evs)
      | (.ok paths, evs) => (.ok (path :: paths), ev :: evs)

/-- Translation of the compositing loop (story_generator.py lines
171-177): composite each `(chunk text, image path)` pair, move the
result into the output directory, and collect the moved paths in
order. -/
def compositeLoop (env : PipelineEnv) (output_dir : List Char) :
    List (List Char × List Char) → Nat → Except PyErr (List (List Char)) × List FsEvent
  | [], _ => (.ok [], [])
  | (txt, image_path) :: rest, i =>
    let outName := imageNewName i
    let ev := FsEvent.callAddText image_path txt outName
    match add_text_to_image env image_path txt outName with
    | .error e => (.error e, [ev])
    | .ok story_with_image =>
      let dst := output_dir ++ '/' :: outName
      match compositeLoop env output_dir rest (i + 1) with
      | (.error e, evs) => (.error e, ev :: FsEvent.moveFile story_with_image dst :: evs)
      | (.ok paths, evs) => (.ok (dst :: paths), ev :: FsEvent.moveFile story_with_image dst :: evs)

/-- The output directory of one run (story_generator.py lines
161-162): `folder_name` is the sanitized title with spaces replaced by
underscores, suffixed by an underscore and the epoch seconds; the
directory is `static/storybooks/<folder_name>`. -/
def outputDirOf (env : PipelineEnv) (title : List Char) : List Char :=
  "static/storybooks/".toList ++
    ((title.map (fun c => if c = ' ' then '_' else c)) ++ '_' :: (toString env.now).toList)

/-- Translation of `process_text` (story_generator.py lines 133-184):
extract the story elements, sanitize the title, split the narrative
into sentences and build page chunks with enriched prompts, create the
per-run output directory, generate one image per page, composite each
page's text and move it into the output directory; any raised error
aborts the whole call and is re-raised.  The second component is the
trace of external effects performed before returning. -/
def process_text (env : PipelineEnv) (text : List Char) :
    Except PyErr (List (List Char) × List Char × List Char) × List FsEvent :=
  match extract_story_elements text with
  | .error e => (.error e, [])
  | .ok (title_raw, storyJ, _moral, image_prompts) =>
    match pyAsStr title_raw with
    | .error e => (.error e, [])
    | .ok title_raw_s =>
      let title := replaceSpecialChars title_raw_s
      match pyAsStr storyJ with
      | .error e => (.error e, [])
      | .ok story =>
        let sentences := pySplit story dotSpace
        match segmentPages sentences image_prompts with
        | .error e => (.error e, [])
        | .ok (combined_sentences, image_prompt_new) =>
          let output_dir := outputDirOf env title
          match genLoop env title image_prompt_new 0 with
          | (.error e, genEvs) => (.error e, FsEvent.mkdirP output_dir :: genEvs)
          | (.ok image_generated_paths, genEvs) =>
            match compositeLoop env output_dir (combined_sentences.zip image_generated_paths) 0 with
            | (.error e, compEvs) =>
              (.error e, FsEvent.mkdirP output_dir :: (genEvs ++ compEvs))
            | (.ok combined_story_with_images, compEvs) =>
              (.ok (combined_story_with_images, output_dir, title),
                FsEvent.mkdirP output_dir :: (genEvs ++ compEvs))

/-- Finding a character in `a ++ c :: b` when `a` avoids `c` locates the
explicit occurrence. -/
theorem pyFindCharNat_append_head (a b : List Char) (c : Char) (h : c ∉ a) :
    pyFindCharNat (a ++ c :: b) c = some a.length := by
  induction a with
  | nil => simp [pyFindCharNat]
  | cons x t ih =>
    have hx : x ≠ c := fun e => h (e ▸ List.mem_cons_self x t)
    have ht : c ∉ t := fun m => h (List.mem_cons_of_mem x m)
    simp [pyFindCharNat, hx, ih ht]

/-- A character absent from a list has no last occurrence. -/
theorem pyRFindCharNat_none_of_not_mem (b : List Char) (c : Char) (h : c ∉ b) :
    pyRFindCharNat b c = none := by
  induction b with
  | nil => rfl
  | cons x t ih =>
    have hx : x ≠ c := fun e => h (e ▸ List.mem_cons_self x t)
    have ht : c ∉ t := fun m => h (List.mem_cons_of_mem x m)
    simp [pyRFindCharNat, ih ht, hx]

/-- Appending a suffix with no occurrence keeps the last occurrence of
the base list. -/
theorem pyRFindCharNat_append_none (a b : List Char) (c : Char)
    (h : pyRFindCharNat b c = none) :
    pyRFindCharNat (a ++ b) c = pyRFindCharNat a c := by
  induction a with
  | nil => simpa using h
  | cons x t ih => simp [pyRFindCharNat, ih]

/-- Appending a prefix shifts the last occurrence by the prefix length. -/
theorem pyRFindCharNat_append_some (a b : List Char) (c : Char) (r : Nat)
    (h : pyRFindCharNat b c = some r) :
    pyRFindCharNat (a ++ b) c = some (a.length + r) := by
  induction a with
  | nil => simpa using h
  | cons x t ih => simp [pyRFindCharNat, ih]; omega

/-- If the last element is `c`, the last occurrence of `c` is the last
index. -/
theorem pyRFindCharNat_getLast (l : List Char) (c : Char) (h : l.getLast? = some c) :
    pyRFindCharNat l c = some (l.length - 1) := by
  induction l with
  | nil => simp at h
  | cons x t ih =>
    cases t with
    | nil =>
      simp only [List.getLast?_singleton, Option.some_inj] at h
      simp [pyRFindCharNat, h]
    | cons y u =>
      have h2 : (y :: u).getLast? = some c := by
        rw [List.getLast?_cons_cons] at h
        exact h
      have := ih h2
      unfold pyRFindCharNat
      rw [this]
      simp

/-- A reported last occurrence is in bounds and the list decomposes
there. -/
theorem pyRFindCharNat_some_spec (l : List Char) (c : Char) (r : Nat)
    (h : pyRFindCharNat l c = some r) :
    r < l.length ∧ l.drop r = c :: l.drop (r + 1) := by
  induction l generalizing r with
  | nil => simp [pyRFindCharNat] at h
  | cons x t ih =>
    simp only [pyRFindCharNat] at h
    cases ht : pyRFindCharNat t c with
    | some i =>
      rw [ht] at h
      cases h
      obtain ⟨h1, h2⟩ := ih i ht
      refine ⟨by simpa using Nat.succ_lt_succ h1, ?_⟩
      simpa using h2
    | none =>
      rw [ht] at h
      by_cases hx : x = c
      · simp only [hx, if_pos rfl, Option.some_inj] at h
        subst hx
        cases h
        simp
      · simp [hx] at h

/-- Slice endpoints resolve into `[0, n]`. -/
theorem pySliceBound_nonneg (n : Nat) (a : Int) : 0 ≤ pySliceBound n a := by
  unfold pySliceBound
  split <;> omega

/-- A non-negative in-range endpoint resolves to itself. -/
theorem pySliceBound_of_le (n : Nat) (a : Int) (h0 : 0 ≤ a) (h : a ≤ (n : Int)) :
    pySliceBound n a = a := by
  unfold pySliceBound
  split <;> omega

/-- A Python slice with stop `0` is empty. -/
theorem pySliceStr_stop_zero (s : List Char) (a : Int) : pySliceStr s a 0 = [] := by
  unfold pySliceStr
  have h1 : pySliceBound s.length 0 = 0 := pySliceBound_of_le _ _ le_rfl (by positivity)
  have h2 : 0 ≤ pySliceBound s.length a := pySliceBound_nonneg _ _
  rw [h1]
  have h3 : (0 - pySliceBound s.length a).toNat = 0 := by omega
  rw [h3]
  simp

/-- Slicing from the length of a prefix to the end of a middle segment
recovers the middle segment. -/
theorem pySliceStr_middle (pre mid suf : List Char) :
    pySliceStr (pre ++ mid ++ suf) (pre.length : Int)
      ((pre.length : Int) + (mid.length : Int)) = mid := by
  unfold pySliceStr
  have hlen : (pre ++ mid ++ suf).length = pre.length + mid.length + suf.length := by
    simp [List.length_append]
    omega
  have hstart : pySliceBound (pre ++ mid ++ suf).length (pre.length : Int) =
      (pre.length : Int) := by
    apply pySliceBound_of_le _ _ (by positivity)
    rw [hlen]
    push_cast
    omega
  have hstop : pySliceBound (pre ++ mid ++ suf).length ((pre.length : Int) + (mid.length : Int)) =
      (pre.length : Int) + (mid.length : Int) := by
    apply pySliceBound_of_le _ _ (by positivity)
    rw [hlen]
    push_cast
    omega
  rw [hstart, hstop]
  have h1 : ((pre.length : Int) + (mid.length : Int) - (pre.length : Int)).toNat = mid.length := by
    omega
  have h2 : ((pre.length : Int)).toNat = pre.length := by omega
  rw [h1, h2]
  rw [List.append_assoc, List.drop_left, List.take_left]

/-- For a payload that starts with an opening brace and ends with a
closing brace, embedded between a prefix with no opening brace and a
suffix with no closing brace, the decoder sees exactly the payload. -/
theorem jsonSliceOf_embedded (pre payload suf : List Char)
    (hpre : lb ∉ pre) (hsuf : rb ∉ suf)
    (hhead : payload.head? = some lb) (hlast : payload.getLast? = some rb) :
    jsonSliceOf (pre ++ payload ++ suf) = payload := by
  cases payload with
  | nil => simp at hhead
  | cons p0 ptl =>
    have hp0 : p0 = lb := by simpa using hhead
    subst hp0
    have hfind : pyFindCharNat (pre ++ (lb :: ptl) ++ suf) lb = some pre.length := by
      rw [List.append_assoc, List.cons_append]
      exact pyFindCharNat_append_head pre (ptl ++ suf) lb hpre
    have hrf1 : pyRFindCharNat ((lb :: ptl) ++ suf) rb = some ((lb :: ptl).length - 1) := by
      rw [pyRFindCharNat_append_none _ _ _ (pyRFindCharNat_none_of_not_mem suf rb hsuf)]
      exact pyRFindCharNat_getLast _ _ hlast
    have hrfind : pyRFindCharNat (pre ++ (lb :: ptl) ++ suf) rb =
        some (pre.length + ((lb :: ptl).length - 1)) := by
      rw [List.append_assoc]
      exact pyRFindCharNat_append_some _ _ _ _ hrf1
    unfold jsonSliceOf pyFindChar pyRFindChar
    rw [hfind, hrfind]
    have harith : ((pre.length + ((lb :: ptl).length - 1) : Nat) : Int) + 1 =
        (pre.length : Int) + ((lb :: ptl).length : Int) := by
      simp only [List.length_cons]
      push_cast
      omega
    rw [harith]
    exact pySliceStr_middle pre (lb :: ptl) suf

/-- The slice of a bare well-formed payload is the payload itself. -/
theorem jsonSliceOf_self (payload : List Char)
    (hhead : payload.head? = some lb) (hlast : payload.getLast? = some rb) :
    jsonSliceOf payload = payload := by
  have := jsonSliceOf_embedded [] payload [] (by simp) (by simp) hhead hlast
  simpa using this

/-- Surrounding noise without stray braces does not change the result of
`extract_story_elements`. -/
theorem extract_story_elements_embedded (pre payload suf : List Char)
    (hpre : lb ∉ pre) (hsuf : rb ∉ suf)
    (hhead : payload.head? = some lb) (hlast : payload.getLast? = some rb) :
    extract_story_elements (pre ++ payload ++ suf) = extract_story_elements payload := by
  unfold extract_story_elements
  rw [jsonSliceOf_embedded pre payload suf hpre hsuf hhead hlast,
    jsonSliceOf_self payload hhead hlast]

/-- A small well-formed story payload used by concrete checks. -/
def wPayload : List Char :=
  lb :: "\"title\": \"t\", \"story\": \"s\", \"moral\": \"m\", \"imagePrompts\": [\"p\"]".toList ++ [rb]

/-- C1 (amended): for every well-formed JSON object payload (starting
with the first opening brace and ending with the last closing brace)
whose extraction succeeds with the four fields, embedding it between a
prefix containing no opening brace and a suffix containing no closing
brace leaves the extracted `title`, `story`, `moral` and `imagePrompts`
unchanged.  The original claim's arbitrary prefix/suffix noise is
refuted by `C1_counterexample`: a prefix containing an opening brace
shifts the slice and makes decoding fail. -/
theorem C1_parse_extracts_embedded_payload (pre payload suf : List Char)
    (t s m ps : Json)
    (hpre : lb ∉ pre) (hsuf : rb ∉ suf)
    (hhead : payload.head? = some lb) (hlast : payload.getLast? = some rb)
    (hok : extract_story_elements payload = .ok (t, s, m, ps)) :
    extract_story_elements (pre ++ payload ++ suf) = .ok (t, s, m, ps) :=
  (extract_story_elements_embedded pre payload suf hpre hsuf hhead hlast).trans hok

/-- Witness for C1: a concrete payload surrounded by concrete noise is
extracted to exactly its four fields. -/
theorem C1_parse_extracts_embedded_payload_witness :
    extract_story_elements ("noise before ".toList ++ wPayload ++ " noise after.".toList) =
      .ok (.str ['t'], .str ['s'], .str ['m'], .arr [.str ['p']]) :=
  C1_parse_extracts_embedded_payload "noise before ".toList wPayload " noise after.".toList
    _ _ _ _ (by decide) (by decide) rfl (by rfl) (by rfl)

/-- Counterexample for C1 as stated: with an arbitrary prefix — here a
single stray opening brace — extraction fails on a payload it extracts
fine in isolation, so the claim does not hold for every surrounding
text. -/
theorem C1_counterexample :
    extract_story_elements (lb :: wPayload) = .error .jsonDecodeError ∧
    extract_story_elements wPayload =
      .ok (.str ['t'], .str ['s'], .str ['m'], .arr [.str ['p']]) :=
  ⟨rfl, rfl⟩

/-- A character absent from a list has no first occurrence. -/
theorem pyFindCharNat_none_of_not_mem (s : List Char) (c : Char) (h : c ∉ s) :
    pyFindCharNat s c = none := by
  induction s with
  | nil => rfl
  | cons x t ih =>
    have hx : x ≠ c := fun e => h (e ▸ List.mem_cons_self x t)
    have ht : c ∉ t := fun m => h (List.mem_cons_of_mem x m)
    simp [pyFindCharNat, hx, ih ht]

/-- When the raw text contains no opening brace or no closing brace, the
slice handed to the decoder is empty or the single closing brace. -/
theorem jsonSliceOf_no_brace (text : List Char) (h : lb ∉ text ∨ rb ∉ text) :
    jsonSliceOf text = [] ∨ jsonSliceOf text = [rb] := by
  rcases h with h | h
  · have hf : pyFindCharNat text lb = none := pyFindCharNat_none_of_not_mem text lb h
    cases hr : pyRFindCharNat text rb with
    | none =>
      left
      unfold jsonSliceOf pyFindChar pyRFindChar
      rw [hf, hr]
      have : (-1 : Int) + 1 = 0 := by omega
      rw [this]
      exact pySliceStr_stop_zero text (-1)
    | some r =>
      obtain ⟨hlt, hdrop⟩ := pyRFindCharNat_some_spec text rb r hr
      unfold jsonSliceOf pyFindChar pyRFindChar
      rw [hf, hr]
      unfold pySliceStr
      have hstart : pySliceBound text.length (-1) = (text.length : Int) - 1 := by
        unfold pySliceBound
        rw [if_pos (by omega)]
        omega
      have hstop : pySliceBound text.length ((r : Int) + 1) = (r : Int) + 1 := by
        apply pySliceBound_of_le _ _ (by positivity)
        omega
      rw [hstart, hstop]
      by_cases hcase : r + 1 = text.length
      · right
        have h1 : ((text.length : Int) - 1).toNat = r := by omega
        have h2 : ((r : Int) + 1 - ((text.length : Int) - 1)).toNat = 1 := by omega
        rw [h1, h2, hdrop]
        have h3 : text.drop (r + 1) = [] := List.drop_eq_nil_of_le (by omega)
        rw [h3]
        rfl
      · left
        have h2 : ((r : Int) + 1 - ((text.length : Int) - 1)).toNat = 0 := by omega
        rw [h2]
        simp
  · left
    have hr : pyRFindCharNat text rb = none := pyRFindCharNat_none_of_not_mem text rb h
    unfold jsonSliceOf pyRFindChar
    rw [hr]
    have : (-1 : Int) + 1 = 0 := by omega
    rw [this]
    exact pySliceStr_stop_zero text _

/-- On input with no opening or no closing brace,
`extract_story_elements` fails with the decode error raised on the
degenerate slice. -/
theorem extract_story_elements_no_brace (text : List Char) (h : lb ∉ text ∨ rb ∉ text) :
    extract_story_elements text = .error .jsonDecodeError := by
  unfold extract_story_elements
  rcases jsonSliceOf_no_brace text h with he | he <;> rw [he] <;> rfl

/-- A sample environment whose provider and compositor always succeed;
the provider returns a deterministic per-index path. -/
def envOkSample : PipelineEnv :=
  { generateImageFn := fun _ _ _ _ i => some ("gen_".toList ++ (toString i).toList ++ ".png".toList)
    compositeFails := fun _ _ _ => false
    now := 17 }

/-- A sample environment whose provider always fails. -/
def envFailSample : PipelineEnv :=
  { generateImageFn := fun _ _ _ _ _ => none
    compositeFails := fun _ _ _ => false
    now := 17 }

/-- C9: on raw text with no opening brace or no closing brace,
`process_text` fails during extraction (the degenerate slice raises the
decode error — the code never checks brace presence explicitly, so the
spec's NoPayloadFound failure is realised as this decode failure), the
effect trace is empty, and in particular no image-generation call is
ever issued. -/
theorem C9_no_payload_never_generates (env : PipelineEnv) (text : List Char)
    (h : lb ∉ text ∨ rb ∉ text) :
    process_text env text = (.error .jsonDecodeError, []) ∧
    ∀ m p n t i, FsEvent.callGenerateImage m p n t i ∉ (process_text env text).2 := by
  have hmain : process_text env text = (.error .jsonDecodeError, []) := by
    unfold process_text
    rw [extract_story_elements_no_brace text h]
  refine ⟨hmain, ?_⟩
  rw [hmain]
  simp

/-- Witness for C9 at a concrete brace-free input. -/
theorem C9_no_payload_never_generates_witness :
    process_text envOkSample "A story with no braces at all.".toList =
      (.error .jsonDecodeError, []) :=
  (C9_no_payload_never_generates envOkSample "A story with no braces at all.".toList
    (Or.inl (by decide))).1

/-- The prompt paired with the chunk starting at sentence index `j`,
stated without failure: entry `j / 3` when it exists, else the last
entry. -/
def promptAt (l : List Json) (j : Nat) : Json :=
  if j / 3 < l.length then l.getD (j / 3) Json.null else (l.getLast?).getD Json.null

/-- A non-negative index passes through index adjustment unchanged. -/
theorem pyAdjustIdx_ofNat (n k : Nat) : pyAdjustIdx n (Int.ofNat k) = some k := by
  unfold pyAdjustIdx
  have h1 : ¬ ((Int.ofNat k) < 0) := by
    rw [Int.ofNat_eq_natCast]
    omega
  rw [if_neg h1, Int.ofNat_eq_natCast]
  simp

/-- Index `-1` of a non-empty sequence adjusts to the last position. -/
theorem pyAdjustIdx_neg_one (n : Nat) (hn : 0 < n) : pyAdjustIdx n (-1) = some (n - 1) := by
  unfold pyAdjustIdx
  rw [if_pos (by omega : (-1 : Int) < 0), if_pos (by omega : (0 : Int) ≤ -1 + (n : Int))]
  congr 1
  omega

/-- Subscripting a decoded array at an in-range non-negative index. -/
theorem pyGetIdx_arr_ofNat (l : List Json) (k : Nat) (h : k < l.length) :
    pyGetIdx (Json.arr l) (Int.ofNat k) = .ok (l.getD k Json.null) := by
  simp only [pyGetIdx, pyAdjustIdx_ofNat, Option.elim]
  rw [List.getElem?_eq_getElem h]
  rw [List.getD_eq_getElem l Json.null h]

/-- Subscripting a non-empty decoded array at `-1` yields its last
element. -/
theorem pyGetIdx_arr_neg_one (l : List Json) (hl : l ≠ []) :
    pyGetIdx (Json.arr l) (-1) = .ok ((l.getLast?).getD Json.null) := by
  have hlen : 0 < l.length := List.length_pos.mpr hl
  simp only [pyGetIdx, pyAdjustIdx_neg_one l.length hlen, Option.elim]
  rw [List.getLast?_eq_getElem?]
  rw [List.getElem?_eq_getElem (by omega : l.length - 1 < l.length)]
  simp

/-- Subscripting the empty decoded array at `-1` raises `IndexError`. -/
theorem pyGetIdx_arr_nil_neg_one : pyGetIdx (Json.arr []) (-1) = .error .indexError := by
  rfl

/-- For a non-empty prompt list, the conditional-expression prompt
lookup of line 156 always succeeds and selects `promptAt`. -/
theorem pagePrompt_arr_ok (l : List Json) (hl : l ≠ []) (j : Nat) :
    pagePrompt (Json.arr l) j = .ok (promptAt l j) := by
  have hstep : pagePrompt (Json.arr l) j =
      (if j / 3 < l.length then pyGetIdx (Json.arr l) (Int.ofNat (j / 3))
        else pyGetIdx (Json.arr l) (-1)) := rfl
  rw [hstep]
  unfold promptAt
  by_cases hc : j / 3 < l.length
  · rw [if_pos hc, if_pos hc]
    exact pyGetIdx_arr_ofNat l (j / 3) hc
  · rw [if_neg hc, if_neg hc]
    exact pyGetIdx_arr_neg_one l hl

/-- Reduction of a successful bind in the `Except` monad. -/
theorem exceptBind_ok {ε α β : Type} (x : α) (f : α → Except ε β) :
    (Except.ok x >>= f) = f x := rfl

/-- Reduction of a failed bind in the `Except` monad. -/
theorem exceptBind_error {ε α β : Type} (e : ε) (f : α → Except ε β) :
    ((Except.error e : Except ε α) >>= f) = Except.error e := rfl

/-- The prompt lookup over an empty prompt list raises `IndexError`
(for every chunk index, in particular the first). -/
theorem pagePrompt_arr_nil (j : Nat) : pagePrompt (Json.arr []) j = .error .indexError := by
  have hstep : pagePrompt (Json.arr []) j =
      (if j / 3 < ([] : List Json).length then pyGetIdx (Json.arr []) (Int.ofNat (j / 3))
        else pyGetIdx (Json.arr []) (-1)) := rfl
  rw [hstep, if_neg (by simp)]
  rfl

/-- Full characterisation of the chunking loop for a non-empty prompt
list: given fuel dominating the remaining iterations it succeeds,
produces one chunk per started group of three sentences, and pairs
chunk `k` with `promptAt` of its starting sentence index. -/
theorem buildPages_spec (sentences : List (List Char)) (l : List Json) (hl : l ≠ []) :
    ∀ fuel i, sentences.length ≤ i + fuel →
      ∃ ts ps, buildPages sentences (Json.arr l) fuel i = .ok (ts, ps) ∧
        ts.length = (sentences.length - i + 2) / 3 ∧
        ps.length = ts.length ∧
        ∀ k, k < ts.length →
          ts[k]? = some (joinDotSpace (pySliceList sentences (i + 3 * k) (i + 3 * k + 3))) ∧
          ps[k]? = some (enrich (joinDotSpace (pySliceList sentences (i + 3 * k) (i + 3 * k + 3)))
            (promptAt l (i + 3 * k))) := by
  intro fuel
  induction fuel with
  | zero =>
    intro i hi
    refine ⟨[], [], rfl, ?_, rfl, ?_⟩
    · simp only [List.length_nil]
      omega
    · intro k hk
      simp at hk
  | succ n ih =>
    intro i hi
    by_cases hlt : i < sentences.length
    · obtain ⟨ts, ps, hbp, hlen, hpl, hget⟩ := ih (i + 3) (by omega)
      refine ⟨joinDotSpace (pySliceList sentences i (i + 3)) :: ts,
        enrich (joinDotSpace (pySliceList sentences i (i + 3))) (promptAt l i) :: ps,
        ?_, ?_, ?_, ?_⟩
      · unfold buildPages
        rw [if_pos hlt]
        rw [pagePrompt_arr_ok l hl i, exceptBind_ok, hbp, exceptBind_ok]
      · simp only [List.length_cons, hlen]
        omega
      · simp [hpl]
      · intro k hk
        cases k with
        | zero =>
          constructor
          · simp
          · simp
        | succ k2 =>
          have hk2 : k2 < ts.length := by
            simpa using hk
          obtain ⟨h1, h2⟩ := hget k2 hk2
          constructor
          · simpa [Nat.mul_succ, Nat.add_assoc, Nat.add_comm, Nat.add_left_comm] using h1
          · simpa [Nat.mul_succ, Nat.add_assoc, Nat.add_comm, Nat.add_left_comm] using h2
    · have hge : ¬ i < sentences.length := hlt
      refine ⟨[], [], ?_, ?_, rfl, ?_⟩
      · unfold buildPages
        rw [if_neg hge]
      · simp only [List.length_nil]
        omega
      · intro k hk
        simp at hk

/-- The top-level segmentation run: success with exactly
`ceil(S / 3)` chunks for a non-empty prompt list, chunk `k` covering
sentences `3k` to `3k + 2` and paired with `promptAt l (3 * k)`. -/
theorem segmentPages_spec (sentences : List (List Char)) (l : List Json) (hl : l ≠ []) :
    ∃ ts ps, segmentPages sentences (Json.arr l) = .ok (ts, ps) ∧
      ts.length = (sentences.length + 2) / 3 ∧
      ps.length = ts.length ∧
      ∀ k, k < ts.length →
        ts[k]? = some (joinDotSpace (pySliceList sentences (3 * k) (3 * k + 3))) ∧
        ps[k]? = some (enrich (joinDotSpace (pySliceList sentences (3 * k) (3 * k + 3)))
          (promptAt l (3 * k))) := by
  obtain ⟨ts, ps, h1, h2, h3, h4⟩ :=
    buildPages_spec sentences l hl (sentences.length + 1) 0 (by omega)
  refine ⟨ts, ps, h1, by simpa using h2, h3, ?_⟩
  intro k hk
  obtain ⟨ha, hb⟩ := h4 k hk
  constructor
  · simpa using ha
  · simpa using hb

/-- The split worker never returns an empty list of parts. -/
theorem splitOnAux_ne_nil (sep : List Char) (fuel : Nat) (s : List Char) :
    splitOnAux sep fuel s ≠ [] := by
  cases fuel with
  | zero => simp [splitOnAux]
  | succ n =>
    unfold splitOnAux
    cases hfs : findSub sep s <;> simp

/-- Python `split` always yields at least one part, so a narrative never
has zero sentences. -/
theorem pySplit_length_pos (s sep : List Char) : 0 < (pySplit s sep).length :=
  List.length_pos.mpr (splitOnAux_ne_nil sep (s.length + 1) s)

/-- C2: for every narrative and every usable (non-empty, as required by
the StoryDocument invariant) prompt list, segmentation with three
sentences per page succeeds and produces exactly `ceil(S / 3)` pages —
stated both as `(S + 2) / 3` and by the bracketing
`S ≤ 3 · pages < S + 3` — where page `k` is the join of the consecutive
sentences `3k, 3k+1, 3k+2`, hence at most 3 sentences per page in
original order. -/
theorem C2_segment_page_count (story : List Char) (l : List Json) (hl : l ≠ [])
    (_hS : 1 ≤ (pySplit story dotSpace).length) :
    ∃ ts ps, segmentPages (pySplit story dotSpace) (Json.arr l) = .ok (ts, ps) ∧
      ts.length = ((pySplit story dotSpace).length + 2) / 3 ∧
      (pySplit story dotSpace).length ≤ 3 * ts.length ∧
      3 * ts.length < (pySplit story dotSpace).length + 3 ∧
      ∀ k, k < ts.length →
        ts[k]? = some (joinDotSpace (pySliceList (pySplit story dotSpace) (3 * k) (3 * k + 3))) ∧
        (pySliceList (pySplit story dotSpace) (3 * k) (3 * k + 3)).length ≤ 3 := by
  obtain ⟨ts, ps, h1, h2, h3, h4⟩ := segmentPages_spec (pySplit story dotSpace) l hl
  refine ⟨ts, ps, h1, h2, by omega, by omega, ?_⟩
  intro k hk
  refine ⟨(h4 k hk).1, ?_⟩
  unfold pySliceList
  rw [List.length_take]
  omega

/-- The example narrative of spec section 8. -/
def exampleStory : List Char :=
  "A cat woke up. It stretched. It yawned. Then it ate breakfast. It played outside.".toList

/-- Witness for C2: the five-sentence example narrative yields two
pages. -/
theorem C2_segment_page_count_witness :
    ∃ ts ps, segmentPages (pySplit exampleStory dotSpace)
        (Json.arr [Json.str "a sleepy cat".toList]) = .ok (ts, ps) ∧
      ts.length = ((pySplit exampleStory dotSpace).length + 2) / 3 ∧
      (pySplit exampleStory dotSpace).length ≤ 3 * ts.length ∧
      3 * ts.length < (pySplit exampleStory dotSpace).length + 3 ∧
      ∀ k, k < ts.length →
        ts[k]? = some (joinDotSpace (pySliceList (pySplit exampleStory dotSpace) (3 * k) (3 * k + 3))) ∧
        (pySliceList (pySplit exampleStory dotSpace) (3 * k) (3 * k + 3)).length ≤ 3 :=
  C2_segment_page_count exampleStory [Json.str "a sleepy cat".toList]
    (by simp) (by decide)

/-- C3 (amended): for a document with at least one prompt (the
StoryDocument usability invariant) but fewer prompts than pages,
segmentation does not crash and every page at an index past the last
prompt index is paired with the final prompt; pages with an in-range
index use their own prompt, so prompts never wrap around.  The original
claim's unconditional no-crash is refuted by `C3_counterexample`: with
zero prompts (which are also fewer than the pages) the lookup of
`image_prompts[-1]` raises `IndexError`. -/
theorem C3_prompt_shortfall_uses_last (story : List Char) (l : List Json) (hl : l ≠ [])
    (_hshort : l.length < ((pySplit story dotSpace).length + 2) / 3) :
    ∃ ts ps, segmentPages (pySplit story dotSpace) (Json.arr l) = .ok (ts, ps) ∧
      ps.length = ts.length ∧
      (∀ k, k < ts.length → l.length ≤ k →
        ps[k]? = some (enrich (joinDotSpace (pySliceList (pySplit story dotSpace) (3 * k) (3 * k + 3)))
          ((l.getLast?).getD Json.null))) ∧
      (∀ k, k < ts.length → k < l.length →
        ps[k]? = some (enrich (joinDotSpace (pySliceList (pySplit story dotSpace) (3 * k) (3 * k + 3)))
          (l.getD k Json.null))) := by
  obtain ⟨ts, ps, h1, h2, h3, h4⟩ := segmentPages_spec (pySplit story dotSpace) l hl
  have hdiv : ∀ k : Nat, 3 * k / 3 = k := fun k => Nat.mul_div_cancel_left k (by norm_num)
  refine ⟨ts, ps, h1, h3, ?_, ?_⟩
  · intro k hk hge
    have h := (h4 k hk).2
    unfold promptAt at h
    rw [hdiv k, if_neg (by omega)] at h
    exact h
  · intro k hk hlt
    have h := (h4 k hk).2
    unfold promptAt at h
    rw [hdiv k, if_pos hlt] at h
    exact h

/-- Counterexample for C3 as stated: the empty prompt list has fewer
entries than the two pages of this narrative, yet segmentation crashes
with `IndexError` instead of reusing a final prompt. -/
theorem C3_counterexample :
    segmentPages (pySplit "A. B. C. D".toList dotSpace) (Json.arr []) = .error .indexError ∧
    ([] : List Json).length < ((pySplit "A. B. C. D".toList dotSpace).length + 2) / 3 :=
  ⟨rfl, by decide⟩

/-- Witness for C3 at a concrete shortfall: five sentences, one prompt,
two pages; page 1 reuses the single (final) prompt. -/
theorem C3_prompt_shortfall_uses_last_witness :
    ∃ ts ps, segmentPages (pySplit exampleStory dotSpace)
        (Json.arr [Json.str "one prompt".toList]) = .ok (ts, ps) ∧
      ps.length = ts.length ∧
      (∀ k, k < ts.length → ([Json.str "one prompt".toList] : List Json).length ≤ k →
        ps[k]? = some (enrich (joinDotSpace (pySliceList (pySplit exampleStory dotSpace) (3 * k) (3 * k + 3)))
          (([Json.str "one prompt".toList] : List Json).getLast?.getD Json.null))) ∧
      (∀ k, k < ts.length → k < ([Json.str "one prompt".toList] : List Json).length →
        ps[k]? = some (enrich (joinDotSpace (pySliceList (pySplit exampleStory dotSpace) (3 * k) (3 * k + 3)))
          (([Json.str "one prompt".toList] : List Json).getD k Json.null))) :=
  C3_prompt_shortfall_uses_last exampleStory [Json.str "one prompt".toList]
    (by simp) (by decide)

/-- With an empty prompt list and at least one sentence, segmentation
aborts on the very first chunk with `IndexError`. -/
theorem segmentPages_empty_prompts (sentences : List (List Char)) (hs : 0 < sentences.length) :
    segmentPages sentences (Json.arr []) = .error .indexError := by
  unfold segmentPages buildPages
  rw [if_pos hs, pagePrompt_arr_nil 0, exceptBind_error]

/-- C10: for every parsed document whose `imagePrompts` list is empty,
the shortfall fallback `image_prompts[-1]` indexes into the empty list,
so processing fails with `IndexError` on the very first chunk (the
narrative always has at least one sentence) before any effect is
performed; the fallback is only safe for a non-empty prompt list. -/
theorem C10_empty_prompts_index_error (env : PipelineEnv) (text : List Char)
    (t s m : Json) (ti st : List Char)
    (hex : extract_story_elements text = .ok (t, s, m, Json.arr []))
    (ht : pyAsStr t = .ok ti) (hs : pyAsStr s = .ok st) :
    process_text env text = (.error .indexError, []) ∧
    pagePrompt (Json.arr []) 0 = .error .indexError := by
  refine ⟨?_, pagePrompt_arr_nil 0⟩
  unfold process_text
  simp only [hex, ht, hs]
  rw [segmentPages_empty_prompts _ (pySplit_length_pos st dotSpace)]

/-- A document whose prompt list is empty, with surrounding noise. -/
def emptyPromptsText : List Char :=
  "pre ".toList ++ lb ::
    "\"title\": \"t\", \"story\": \"A. B\", \"moral\": \"m\", \"imagePrompts\": []".toList ++ [rb]

/-- Witness for C10 at a concrete empty-prompts document. -/
theorem C10_empty_prompts_index_error_witness :
    process_text envOkSample emptyPromptsText = (.error .indexError, []) :=
  (C10_empty_prompts_index_error envOkSample emptyPromptsText
    (.str ['t']) (.str "A. B".toList) (.str ['m']) ['t'] "A. B".toList
    rfl rfl rfl).1

/-- A document whose narrative is the empty string. -/
def emptyStoryText : List Char :=
  "pre ".toList ++ lb ::
    "\"title\": \"T\", \"story\": \"\", \"moral\": \"m\", \"imagePrompts\": [\"p\"]".toList ++ [rb]

/-- Counterexample for C6 as stated: on an empty narrative the pipeline
does not fail at all — with a working provider it succeeds and produces
exactly one page (whose text is empty); there is no empty-narrative
error anywhere in the code, because Python `split` returns one empty
sentence for the empty string. -/
theorem C6_counterexample :
    (process_text envOkSample emptyStoryText).1 =
      .ok (["static/storybooks/T_17/image_new_0.png".toList],
        "static/storybooks/T_17".toList, ['T']) := rfl

/-- C6 (amended): a narrative never yields zero sentences — splitting
always produces at least one (possibly empty) sentence — and for the
empty narrative with a usable prompt list, segmentation succeeds with
exactly one page whose text is empty, rather than failing. -/
theorem C6_empty_narrative_one_page (l : List Json) (hl : l ≠ []) :
    (∀ story : List Char, 1 ≤ (pySplit story dotSpace).length) ∧
    segmentPages (pySplit [] dotSpace) (Json.arr l) =
      .ok ([[]], [enrich [] (promptAt l 0)]) := by
  constructor
  · intro story
    exact pySplit_length_pos story dotSpace
  · show buildPages [[]] (Json.arr l) 2 0 = .ok ([[]], [enrich [] (promptAt l 0)])
    unfold buildPages
    rw [if_pos (by decide : 0 < ([[]] : List (List Char)).length)]
    rw [pagePrompt_arr_ok l hl 0, exceptBind_ok]
    rw [show buildPages [[]] (Json.arr l) 1 3 = .ok ([], []) from by
      unfold buildPages
      rw [if_neg (by decide : ¬ 3 < ([[]] : List (List Char)).length)]]
    rw [exceptBind_ok]
    rfl

/-- Witness for C6 with a concrete one-prompt list. -/
theorem C6_empty_narrative_one_page_witness :
    (∀ story : List Char, 1 ≤ (pySplit story dotSpace).length) ∧
    segmentPages (pySplit [] dotSpace) (Json.arr [Json.str ['p']]) =
      .ok ([[]], [enrich [] (promptAt [Json.str ['p']] 0)]) :=
  C6_empty_narrative_one_page [Json.str ['p']] (by simp)

/-- Dropping by a predicate satisfied on a whole leading block skips
the block. -/
theorem dropWhile_append_of_all (p : Char → Bool) (a b : List Char)
    (h : ∀ c ∈ a, p c = true) :
    (a ++ b).dropWhile p = b.dropWhile p := by
  induction a with
  | nil => simp
  | cons x t ih =>
    have hx : p x = true := h x (List.mem_cons_self x t)
    simp only [List.cons_append, List.dropWhile_cons, hx, if_true]
    exact ih fun c hc => h c (List.mem_cons_of_mem x hc)

/-- A list whose head does not satisfy the predicate is unchanged by
`dropWhile`. -/
theorem dropWhile_eq_self_of_head (p : Char → Bool) (s : List Char)
    (h : ∀ c, s.head? = some c → p c = false) :
    s.dropWhile p = s := by
  cases s with
  | nil => rfl
  | cons c rest =>
    have hc : p c = false := h c rfl
    simp [List.dropWhile_cons, hc]

/-- The sanitizer worker is insensitive to the exact fuel once the fuel
dominates the input length. -/
theorem replaceSpecialCharsAux_fuel :
    ∀ (n : Nat) (s : List Char), s.length ≤ n → ∀ f1 f2, s.length ≤ f1 → s.length ≤ f2 →
      replaceSpecialCharsAux f1 s = replaceSpecialCharsAux f2 s := by
  intro n
  induction n with
  | zero =>
    intro s hs f1 f2 h1 h2
    have : s = [] := List.eq_nil_of_length_eq_zero (by omega)
    subst this
    cases f1 <;> cases f2 <;> rfl
  | succ n ih =>
    intro s hs f1 f2 h1 h2
    cases s with
    | nil => cases f1 <;> cases f2 <;> rfl
    | cons c rest =>
      have hlr : rest.length + 1 ≤ n + 1 := by simpa using hs
      cases f1 with
      | zero => simp at h1
      | succ g1 =>
        cases f2 with
        | zero => simp at h2
        | succ g2 =>
          unfold replaceSpecialCharsAux
          by_cases hc : isSpecialChar c
          · rw [if_pos hc, if_pos hc]
            have hd := dropWhile_length_le isSpecialChar rest
            congr 1
            exact ih (rest.dropWhile isSpecialChar) (by omega) g1 g2 (by simp at h1; omega)
              (by simp at h2; omega)
          · rw [if_neg hc, if_neg hc]
            congr 1
            exact ih rest (by omega) g1 g2 (by simp at h1; omega) (by simp at h2; omega)

/-- C4 (amended): sanitization keeps every non-special character in
place (in particular the apostrophe), replaces each maximal run of one
or more special characters — the regex class is applied with a `+`
quantifier, so consecutive specials collapse — by a single space, and
consequently the example title sanitizes with the apostrophe kept and
three spaces between `Day` and `1` (one for the bang, one for the
original space, one for the hash), not to the output the original claim
names. -/
theorem C4_sanitize_runs :
    (∀ c s, isSpecialChar c = false →
      replaceSpecialChars (c :: s) = c :: replaceSpecialChars s) ∧
    (∀ run s, run ≠ [] → (∀ c ∈ run, isSpecialChar c = true) →
      (∀ c, s.head? = some c → isSpecialChar c = false) →
      replaceSpecialChars (run ++ s) = ' ' :: replaceSpecialChars s) ∧
    replaceSpecialChars ("Cat".toList ++ apos :: "s Big Day! #1".toList) =
      "Cat".toList ++ apos :: "s Big Day   1".toList := by
  refine ⟨?_, ?_, rfl⟩
  · intro c s hc
    unfold replaceSpecialChars
    have hL : (c :: s).length + 1 = s.length + 1 + 1 := by simp
    rw [hL]
    conv_lhs => rw [replaceSpecialCharsAux]
    rw [if_neg (by simp [hc])]
  · intro run s hne hall hhead
    cases run with
    | nil => exact absurd rfl hne
    | cons r0 rtl =>
      unfold replaceSpecialChars
      rw [List.cons_append]
      have hL : ((r0 :: (rtl ++ s)).length + 1) = (rtl ++ s).length + 1 + 1 := by simp
      rw [hL]
      conv_lhs => rw [replaceSpecialCharsAux]
      rw [if_pos (hall r0 (List.mem_cons_self r0 rtl))]
      have hdrop : (rtl ++ s).dropWhile isSpecialChar = s := by
        rw [dropWhile_append_of_all isSpecialChar rtl s
          (fun c hc => hall c (List.mem_cons_of_mem r0 hc))]
        exact dropWhile_eq_self_of_head isSpecialChar s hhead
      rw [hdrop]
      congr 1
      apply replaceSpecialCharsAux_fuel s.length s le_rfl
      · simp [List.length_append]
        omega
      · omega

/-- Counterexample for C4 as stated: the concrete title named by the
claim sanitizes to a string that keeps the apostrophe and has three
spaces before the final digit, which differs from the output the claim
asserts. -/
theorem C4_counterexample :
    replaceSpecialChars ("Cat".toList ++ apos :: "s Big Day! #1".toList) =
      "Cat".toList ++ apos :: "s Big Day   1".toList ∧
    ("Cat".toList ++ apos :: "s Big Day   1".toList) ≠ "Cats Big Day  1".toList :=
  ⟨rfl, by decide⟩

/-- Witness for C4 at concrete inputs: a kept letter and a collapsed
two-character special run. -/
theorem C4_sanitize_runs_witness :
    replaceSpecialChars ('a' :: []) = 'a' :: replaceSpecialChars [] ∧
    replaceSpecialChars (['!', ';'] ++ []) = ' ' :: replaceSpecialChars [] :=
  ⟨C4_sanitize_runs.1 'a' [] (by decide),
   C4_sanitize_runs.2.1 ['!', ';'] [] (by simp) (by decide) (by intro c h; simp at h)⟩

/-- The chunk length sum of an empty line. -/
theorem sumLen_nil : sumLen [] = 0 := rfl

/-- The chunk length sum over a cons. -/
theorem sumLen_cons (c : List Char) (l : List (List Char)) :
    sumLen (c :: l) = c.length + sumLen l := by
  simp [sumLen]

/-- The chunk length sum over an append. -/
theorem sumLen_append (a b : List (List Char)) :
    sumLen (a ++ b) = sumLen a + sumLen b := by
  simp [sumLen]

/-- Chunk length sums only decrease under sublists. -/
theorem sumLen_sublist_le (a b : List (List Char)) (h : a.Sublist b) :
    sumLen a ≤ sumLen b := by
  induction h with
  | slnil => exact le_rfl
  | cons c _ ih =>
    rename_i l1 l2 _
    rw [sumLen_cons]
    omega
  | cons₂ c _ ih =>
    rename_i l1 l2 _
    rw [sumLen_cons, sumLen_cons]
    omega

/-- Dropping a trailing whitespace chunk only shortens the line. -/
theorem sumLen_dropTrailingWs_le (l : List (List Char)) :
    sumLen (dropTrailingWs l) ≤ sumLen l := by
  unfold dropTrailingWs
  cases h : l.getLast? with
  | none => exact le_rfl
  | some last =>
    show sumLen (if last.all isPyWs then l.dropLast else l) ≤ sumLen l
    by_cases hw : last.all isPyWs
    · rw [if_pos hw]
      exact sumLen_sublist_le _ _ (List.dropLast_sublist l)
    · rw [if_neg hw]

/-- The greedy line filler never exceeds the width budget it is given. -/
theorem takeGreedy_bound (width : Nat) :
    ∀ (chunks : List (List Char)) (cur : Nat), cur ≤ width →
      cur + sumLen (takeGreedy width cur chunks).1 ≤ width := by
  intro chunks
  induction chunks with
  | nil =>
    intro cur h
    simpa [takeGreedy, sumLen] using h
  | cons c rest ih =>
    intro cur h
    unfold takeGreedy
    by_cases hfit : cur + c.length ≤ width
    · rw [if_pos hfit]
      rcases hgr : takeGreedy width (cur + c.length) rest with ⟨a, b⟩
      have hih := ih (cur + c.length) hfit
      rw [hgr] at hih
      simp only [sumLen_cons]
      simp only at hih
      omega
    · rw [if_neg hfit]
      simpa [sumLen] using h

/-- Long-word splitting keeps the current line within the width. -/
theorem handleLong_fst_le (width : Nat) (hw : 1 ≤ width) (cl rest : List (List Char))
    (h : sumLen cl ≤ width) :
    sumLen (handleLong width (cl, rest)).1 ≤ width := by
  cases rest with
  | nil => simpa [handleLong] using h
  | cons c rest2 =>
    by_cases hlong : width < c.length
    · simp only [handleLong, if_pos hlong]
      rw [sumLen_append, sumLen_cons, sumLen_nil]
      have hnot : ¬ width < 1 := by omega
      rw [if_neg hnot]
      have htake : (c.take (width - sumLen cl)).length ≤ width - sumLen cl := by
        simp
      omega
    · simpa [handleLong, if_neg hlong] using h

/-- Every line emitted by one wrap iteration fits in the width. -/
theorem wrapLine_emit_le (width : Nat) (hw : 1 ≤ width) (chunks1 : List (List Char))
    (line : List Char) (rest : List (List Char))
    (h : wrapLine width chunks1 = (some line, rest)) : line.length ≤ width := by
  simp only [wrapLine] at h
  split at h
  · simp at h
  · have hline : line = (dropTrailingWs (handleLong width (takeGreedy width 0 chunks1)).1).flatten := by
      have := congrArg Prod.fst h
      simp at this
      exact this.symm
    subst hline
    rw [List.length_flatten]
    show sumLen (dropTrailingWs (handleLong width (takeGreedy width 0 chunks1)).1) ≤ width
    refine le_trans (sumLen_dropTrailingWs_le _) ?_
    rcases hgr : takeGreedy width 0 chunks1 with ⟨cl, grRest⟩
    have hcl : sumLen cl ≤ width := by
      have := takeGreedy_bound width chunks1 0 (by omega)
      rw [hgr] at this
      simpa using this
    exact handleLong_fst_le width hw cl grRest hcl

/-- Every line produced by the wrap loop fits in the width (for a
positive width). -/
theorem wrapChunks_lines_le (width : Nat) (hw : 1 ≤ width) :
    ∀ fuel first chunks line, line ∈ wrapChunks width fuel first chunks →
      line.length ≤ width := by
  intro fuel
  induction fuel with
  | zero =>
    intro first chunks line h
    simp [wrapChunks] at h
  | succ n ih =>
    intro first chunks line hmem
    cases chunks with
    | nil => simp [wrapChunks] at hmem
    | cons chunk0 chunks0 =>
      rw [wrapChunks] at hmem
      rcases hwl : wrapLine width
          (if first = false && chunk0.all isPyWs then chunks0 else chunk0 :: chunks0)
        with ⟨ol, rest⟩
      rw [hwl] at hmem
      cases ol with
      | none => exact ih first rest line hmem
      | some l2 =>
        rcases List.mem_cons.mp hmem with heq2 | hmem2
        · subst heq2
          exact wrapLine_emit_le width hw _ line rest hwl
        · exact ih false rest line hmem2

/-- C5 (amended): the overlay wrap (`textwrap.fill(text, width=40)` at
line 84) produces lines of at most 40 characters, breaking at
whitespace boundaries except that a single word longer than the limit
is hard-split into pieces of at most 40 characters (the stdlib default
`break_long_words=True`) rather than being left as one oversized line;
`wrapped_text` is exactly those lines joined by newlines. -/
theorem C5_wrap_line_length (text line : List Char) (h : line ∈ textwrapWrap text 40) :
    line.length ≤ 40 ∧
    wrapped_text text = List.intercalate [Char.ofNat 10] (textwrapWrap text 40) := by
  refine ⟨?_, rfl⟩
  exact wrapChunks_lines_le 40 (by omega) _ true _ line h

/-- Counterexample for C5 as stated: a single 50-character word is
split across two lines of 40 and 10 characters instead of remaining
one oversized line. -/
theorem C5_counterexample :
    textwrapWrap (List.replicate 50 'a') 40 =
      [List.replicate 40 'a', List.replicate 10 'a'] ∧
    40 < (List.replicate 50 'a').length :=
  ⟨rfl, by decide⟩

/-- Witness for C5: a concrete first line of a wrapped two-line text is
within the limit. -/
theorem C5_wrap_line_length_witness :
    ("The quick brown fox jumps over the lazy".toList).length ≤ 40 ∧
    wrapped_text "The quick brown fox jumps over the lazy dog and runs far away".toList =
      List.intercalate [Char.ofNat 10]
        (textwrapWrap "The quick brown fox jumps over the lazy dog and runs far away".toList 40) :=
  C5_wrap_line_length
    "The quick brown fox jumps over the lazy dog and runs far away".toList
    "The quick brown fox jumps over the lazy".toList (by decide)

/-- A successful generation loop produced one path per prompt. -/
theorem genLoop_ok_length (env : PipelineEnv) (title : List Char) :
    ∀ (prompts : List (List Char)) (i : Nat) (paths : List (List Char)) (evs : List FsEvent),
      genLoop env title prompts i = (.ok paths, evs) → paths.length = prompts.length := by
  intro prompts
  induction prompts with
  | nil =>
    intro i paths evs h
    simp only [genLoop] at h
    cases h
    rfl
  | cons p rest ih =>
    intro i paths evs h
    simp only [genLoop, generate_image] at h
    cases hgf : env.generateImageFn IMAGE_MODELS.headI p [] title i with
    | none =>
      rw [hgf] at h
      simp at h
    | some path =>
      rw [hgf] at h
      rcases hrec : genLoop env title rest (i + 1) with ⟨r, evs2⟩
      rw [hrec] at h
      cases r with
      | error e => simp at h
      | ok paths2 =>
        simp only [Prod.mk.injEq] at h
        obtain ⟨h1, _⟩ := h
        cases h1
        simp [ih (i + 1) paths2 evs2 (by rw [hrec])]

/-- If the generation loop succeeded, every provider call it issued
succeeded. -/
theorem genLoop_ok_calls (env : PipelineEnv) (title : List Char) :
    ∀ (prompts : List (List Char)) (i : Nat) (paths : List (List Char)) (evs : List FsEvent),
      genLoop env title prompts i = (.ok paths, evs) →
      ∀ m p n t j, FsEvent.callGenerateImage m p n t j ∈ evs →
        env.generateImageFn m p n t j ≠ none := by
  intro prompts
  induction prompts with
  | nil =>
    intro i paths evs h m p n t j hmem
    simp only [genLoop] at h
    cases h
    simp at hmem
  | cons pr rest ih =>
    intro i paths evs h m p n t j hmem
    simp only [genLoop, generate_image] at h
    cases hgf : env.generateImageFn IMAGE_MODELS.headI pr [] title i with
    | none =>
      rw [hgf] at h
      simp at h
    | some path =>
      rw [hgf] at h
      rcases hrec : genLoop env title rest (i + 1) with ⟨r, evs2⟩
      rw [hrec] at h
      cases r with
      | error e => simp at h
      | ok paths2 =>
        simp only [Prod.mk.injEq] at h
        obtain ⟨h1, h2⟩ := h
        subst h2
        rcases List.mem_cons.mp hmem with heq2 | hmem2
        · cases heq2
          rw [hgf]
          simp
        · exact ih (i + 1) paths2 evs2 (by rw [hrec]) m p n t j hmem2

/-- The generation loop never performs a directory removal. -/
theorem genLoop_no_removeTree (env : PipelineEnv) (title : List Char) :
    ∀ (prompts : List (List Char)) (i : Nat) (p : List Char),
      FsEvent.removeTree p ∉ (genLoop env title prompts i).2 := by
  intro prompts
  induction prompts with
  | nil =>
    intro i p
    simp [genLoop]
  | cons pr rest ih =>
    intro i p
    simp only [genLoop, generate_image]
    cases hgf : env.generateImageFn IMAGE_MODELS.headI pr [] title i with
    | none => simp
    | some path =>
      rcases hrec : genLoop env title rest (i + 1) with ⟨r, evs2⟩
      have hih := ih (i + 1) p
      rw [hrec] at hih
      cases r with
      | error e =>
        simp only []
        intro hmem
        rcases List.mem_cons.mp hmem with heq2 | hmem2
        · exact FsEvent.noConfusion heq2
        · exact hih hmem2
      | ok paths2 =>
        simp only []
        intro hmem
        rcases List.mem_cons.mp hmem with heq2 | hmem2
        · exact FsEvent.noConfusion heq2
        · exact hih hmem2

/-- The generation loop never performs a compositing call. -/
theorem genLoop_no_addText (env : PipelineEnv) (title : List Char) :
    ∀ (prompts : List (List Char)) (i : Nat) (ip tx op : List Char),
      FsEvent.callAddText ip tx op ∉ (genLoop env title prompts i).2 := by
  intro prompts
  induction prompts with
  | nil =>
    intro i ip tx op
    simp [genLoop]
  | cons pr rest ih =>
    intro i ip tx op
    simp only [genLoop, generate_image]
    cases hgf : env.generateImageFn IMAGE_MODELS.headI pr [] title i with
    | none => simp
    | some path =>
      rcases hrec : genLoop env title rest (i + 1) with ⟨r, evs2⟩
      have hih := ih (i + 1) ip tx op
      rw [hrec] at hih
      cases r with
      | error e =>
        simp only []
        intro hmem
        rcases List.mem_cons.mp hmem with heq2 | hmem2
        · exact FsEvent.noConfusion heq2
        · exact hih hmem2
      | ok paths2 =>
        simp only []
        intro hmem
        rcases List.mem_cons.mp hmem with heq2 | hmem2
        · exact FsEvent.noConfusion heq2
        · exact hih hmem2

/-- A successful compositing loop produced one output path per pair, in
index order, with the deterministic per-index file names under the
output directory. -/
theorem compositeLoop_ok_paths (env : PipelineEnv) (outDir : List Char) :
    ∀ (pairs : List (List Char × List Char)) (i : Nat) (paths : List (List Char))
      (evs : List FsEvent),
      compositeLoop env outDir pairs i = (.ok paths, evs) →
      paths.length = pairs.length ∧
      ∀ k, k < paths.length → paths[k]? = some (outDir ++ '/' :: imageNewName (i + k)) := by
  intro pairs
  induction pairs with
  | nil =>
    intro i paths evs h
    simp only [compositeLoop] at h
    cases h
    exact ⟨rfl, by intro k hk; simp at hk⟩
  | cons pr rest ih =>
    intro i paths evs h
    obtain ⟨txt, imgPath⟩ := pr
    simp only [compositeLoop, add_text_to_image] at h
    cases hcf : env.compositeFails imgPath txt (imageNewName i) with
    | true =>
      rw [hcf] at h
      simp at h
    | false =>
      rw [hcf] at h
      simp only [Bool.false_eq_true, if_false] at h
      rcases hrec : compositeLoop env outDir rest (i + 1) with ⟨r, evs2⟩
      rw [hrec] at h
      cases r with
      | error e => simp at h
      | ok paths2 =>
        simp only [Prod.mk.injEq] at h
        obtain ⟨h1, _⟩ := h
        cases h1
        obtain ⟨hlen, hform⟩ := ih (i + 1) paths2 evs2 (by rw [hrec])
        refine ⟨by simp [hlen], ?_⟩
        intro k hk
        cases k with
        | zero => simp
        | succ k2 =>
          have hk2 : k2 < paths2.length := by simpa using hk
          have := hform k2 hk2
          simpa [Nat.add_assoc, Nat.add_comm, Nat.add_left_comm] using this

/-- If the compositing loop succeeded, every compositing call it issued
succeeded. -/
theorem compositeLoop_ok_calls (env : PipelineEnv) (outDir : List Char) :
    ∀ (pairs : List (List Char × List Char)) (i : Nat) (paths : List (List Char))
      (evs : List FsEvent),
      compositeLoop env outDir pairs i = (.ok paths, evs) →
      ∀ ip tx op, FsEvent.callAddText ip tx op ∈ evs →
        env.compositeFails ip tx op = false := by
  intro pairs
  induction pairs with
  | nil =>
    intro i paths evs h ip tx op hmem
    simp only [compositeLoop] at h
    cases h
    simp at hmem
  | cons pr rest ih =>
    intro i paths evs h ip tx op hmem
    obtain ⟨txt, imgPath⟩ := pr
    simp only [compositeLoop, add_text_to_image] at h
    cases hcf : env.compositeFails imgPath txt (imageNewName i) with
    | true =>
      rw [hcf] at h
      simp at h
    | false =>
      rw [hcf] at h
      simp only [Bool.false_eq_true, if_false] at h
      rcases hrec : compositeLoop env outDir rest (i + 1) with ⟨r, evs2⟩
      rw [hrec] at h
      cases r with
      | error e => simp at h
      | ok paths2 =>
        simp only [Prod.mk.injEq] at h
        obtain ⟨_, h2⟩ := h
        subst h2
        rcases List.mem_cons.mp hmem with heq2 | hmem2
        · cases heq2
          exact hcf
        · rcases List.mem_cons.mp hmem2 with heq3 | hmem3
          · exact FsEvent.noConfusion heq3
          · exact ih (i + 1) paths2 evs2 (by rw [hrec]) ip tx op hmem3

/-- The compositing loop never performs a directory removal. -/
theorem compositeLoop_no_removeTree (env : PipelineEnv) (outDir : List Char) :
    ∀ (pairs : List (List Char × List Char)) (i : Nat) (p : List Char),
      FsEvent.removeTree p ∉ (compositeLoop env outDir pairs i).2 := by
  intro pairs
  induction pairs with
  | nil =>
    intro i p
    simp [compositeLoop]
  | cons pr rest ih =>
    intro i p
    obtain ⟨txt, imgPath⟩ := pr
    simp only [compositeLoop, add_text_to_image]
    cases hcf : env.compositeFails imgPath txt (imageNewName i) with
    | true => simp
    | false =>
      simp only [Bool.false_eq_true, if_false]
      rcases hrec : compositeLoop env outDir rest (i + 1) with ⟨r, evs2⟩
      have hih := ih (i + 1) p
      rw [hrec] at hih
      cases r with
      | error e =>
        simp only []
        intro hmem
        rcases List.mem_cons.mp hmem with heq2 | hmem2
        · exact FsEvent.noConfusion heq2
        · rcases List.mem_cons.mp hmem2 with heq3 | hmem3
          · exact FsEvent.noConfusion heq3
          · exact hih hmem3
      | ok paths2 =>
        simp only []
        intro hmem
        rcases List.mem_cons.mp hmem with heq2 | hmem2
        · exact FsEvent.noConfusion heq2
        · rcases List.mem_cons.mp hmem2 with heq3 | hmem3
          · exact FsEvent.noConfusion heq3
          · exact hih hmem3

/-- The compositing loop never performs an image-generation call. -/
theorem compositeLoop_no_genImage (env : PipelineEnv) (outDir : List Char) :
    ∀ (pairs : List (List Char × List Char)) (i : Nat) (m p n t : List Char) (j : Nat),
      FsEvent.callGenerateImage m p n t j ∉ (compositeLoop env outDir pairs i).2 := by
  intro pairs
  induction pairs with
  | nil =>
    intro i m p n t j
    simp [compositeLoop]
  | cons pr rest ih =>
    intro i m p n t j
    obtain ⟨txt, imgPath⟩ := pr
    simp only [compositeLoop, add_text_to_image]
    cases hcf : env.compositeFails imgPath txt (imageNewName i) with
    | true => simp
    | false =>
      simp only [Bool.false_eq_true, if_false]
      rcases hrec : compositeLoop env outDir rest (i + 1) with ⟨r, evs2⟩
      have hih := ih (i + 1) m p n t j
      rw [hrec] at hih
      cases r with
      | error e =>
        simp only []
        intro hmem
        rcases List.mem_cons.mp hmem with heq2 | hmem2
        · exact FsEvent.noConfusion heq2
        · rcases List.mem_cons.mp hmem2 with heq3 | hmem3
          · exact FsEvent.noConfusion heq3
          · exact hih hmem3
      | ok paths2 =>
        simp only []
        intro hmem
        rcases List.mem_cons.mp hmem with heq2 | hmem2
        · exact FsEvent.noConfusion heq2
        · rcases List.mem_cons.mp hmem2 with heq3 | hmem3
          · exact FsEvent.noConfusion heq3
          · exact hih hmem3

/-- Whenever the chunking loop succeeds (for any prompts value), it
produced one chunk per started group of three sentences and one
enriched prompt per chunk. -/
theorem buildPages_ok_shape (sentences : List (List Char)) (prompts : Json) :
    ∀ (fuel i : Nat) (ts ps : List (List Char)), sentences.length ≤ i + fuel →
      buildPages sentences prompts fuel i = .ok (ts, ps) →
      ts.length = (sentences.length - i + 2) / 3 ∧ ps.length = ts.length := by
  intro fuel
  induction fuel with
  | zero =>
    intro i ts ps hfuel h
    simp only [buildPages] at h
    cases h
    refine ⟨?_, rfl⟩
    simp only [List.length_nil]
    omega
  | succ n ih =>
    intro i ts ps hfuel h
    by_cases hlt : i < sentences.length
    · rw [buildPages, if_pos hlt] at h
      cases hpp : pagePrompt prompts i with
      | error e =>
        rw [hpp, exceptBind_error] at h
        exact absurd h (by simp)
      | ok p =>
        rw [hpp, exceptBind_ok] at h
        cases hbp : buildPages sentences prompts n (i + 3) with
        | error e =>
          rw [hbp, exceptBind_error] at h
          exact absurd h (by simp)
        | ok pair =>
          obtain ⟨ts2, ps2⟩ := pair
          rw [hbp, exceptBind_ok] at h
          simp only [Except.ok.injEq, Prod.mk.injEq] at h
          obtain ⟨h1, h2⟩ := h
          subst h1
          subst h2
          obtain ⟨hl1, hl2⟩ := ih (i + 3) ts2 ps2 (by omega) hbp
          constructor
          · simp only [List.length_cons, hl1]
            omega
          · simp [hl2]
    · rw [buildPages, if_neg hlt] at h
      cases h
      refine ⟨?_, rfl⟩
      simp only [List.length_nil]
      omega

/-- Shape of a successful top-level segmentation for any prompts
value. -/
theorem segmentPages_ok_shape (sentences : List (List Char)) (prompts : Json)
    (ts ps : List (List Char)) (h : segmentPages sentences prompts = .ok (ts, ps)) :
    ts.length = (sentences.length + 2) / 3 ∧ ps.length = ts.length := by
  obtain ⟨h1, h2⟩ :=
    buildPages_ok_shape sentences prompts (sentences.length + 1) 0 ts ps (by omega) h
  exact ⟨by simpa using h1, h2⟩

/-- Decomposition of a successful `process_text` run into the
successful runs of its stages, with the returned directory, title and
trace pinned down. -/
theorem process_text_ok_spec (env : PipelineEnv) (text : List Char)
    (paths : List (List Char)) (outDir title : List Char) (evs : List FsEvent)
    (h : process_text env text = (.ok (paths, outDir, title), evs)) :
    ∃ t s m ps ti st cs ipn gps genEvs compEvs,
      extract_story_elements text = .ok (t, s, m, ps) ∧
      pyAsStr t = .ok ti ∧ pyAsStr s = .ok st ∧
      segmentPages (pySplit st dotSpace) ps = .ok (cs, ipn) ∧
      genLoop env title ipn 0 = (.ok gps, genEvs) ∧
      compositeLoop env outDir (cs.zip gps) 0 = (.ok paths, compEvs) ∧
      title = replaceSpecialChars ti ∧
      outDir = outputDirOf env title ∧
      evs = FsEvent.mkdirP outDir :: (genEvs ++ compEvs) := by
  unfold process_text at h
  rcases hex : extract_story_elements text with e | ⟨t, s, m, ps⟩
  · rw [hex] at h
    simp at h
  · simp only [hex] at h
    rcases hti : pyAsStr t with e | ti
    · simp only [hti] at h
      simp at h
    · simp only [hti] at h
      rcases hst : pyAsStr s with e | st
      · simp only [hst] at h
        simp at h
      · simp only [hst] at h
        rcases hseg : segmentPages (pySplit st dotSpace) ps with e | ⟨cs, ipn⟩
        · simp only [hseg] at h
          simp at h
        · simp only [hseg] at h
          rcases hgen : genLoop env (replaceSpecialChars ti) ipn 0 with ⟨gr, genEvs⟩
          simp only [hgen] at h
          cases gr with
          | error e => simp at h
          | ok gps =>
            rcases hcomp : compositeLoop env (outputDirOf env (replaceSpecialChars ti))
                (cs.zip gps) 0 with ⟨cr, compEvs⟩
            simp only [hcomp] at h
            cases cr with
            | error e => simp at h
            | ok outPaths =>
              simp only [Prod.mk.injEq, Except.ok.injEq] at h
              obtain ⟨⟨hpaths, houtDir, htitle⟩, hevs⟩ := h
              subst htitle
              subst houtDir
              subst hpaths
              subst hevs
              exact ⟨t, s, m, ps, ti, st, cs, ipn, gps, genEvs, compEvs,
                rfl, hti, hst, hseg, hgen, hcomp, rfl, rfl, rfl⟩

/-- No run of `process_text` ever removes a directory: the source has
no cleanup call on any path, success or failure. -/
theorem process_text_no_removeTree (env : PipelineEnv) (text : List Char)
    (res : Except PyErr (List (List Char) × List Char × List Char)) (evs : List FsEvent)
    (h : process_text env text = (res, evs)) (p : List Char) :
    FsEvent.removeTree p ∉ evs := by
  unfold process_text at h
  rcases hex : extract_story_elements text with e | ⟨t, s, m, ps⟩
  · simp only [hex] at h
    cases h
    simp
  · simp only [hex] at h
    rcases hti : pyAsStr t with e | ti
    · simp only [hti] at h
      cases h
      simp
    · simp only [hti] at h
      rcases hst : pyAsStr s with e | st
      · simp only [hst] at h
        cases h
        simp
      · simp only [hst] at h
        rcases hseg : segmentPages (pySplit st dotSpace) ps with e | ⟨cs, ipn⟩
        · simp only [hseg] at h
          cases h
          simp
        · simp only [hseg] at h
          rcases hgen : genLoop env (replaceSpecialChars ti) ipn 0 with ⟨gr, genEvs⟩
          simp only [hgen] at h
          have hg := genLoop_no_removeTree env (replaceSpecialChars ti) ipn 0 p
          rw [hgen] at hg
          cases gr with
          | error e =>
            cases h
            intro hmem
            rcases List.mem_cons.mp hmem with habs | hmem2
            · exact FsEvent.noConfusion habs
            · exact hg hmem2
          | ok gps =>
            rcases hcomp : compositeLoop env (outputDirOf env (replaceSpecialChars ti))
                (cs.zip gps) 0 with ⟨cr, compEvs⟩
            simp only [hcomp] at h
            have hc := compositeLoop_no_removeTree env
              (outputDirOf env (replaceSpecialChars ti)) (cs.zip gps) 0 p
            rw [hcomp] at hc
            cases cr with
            | error e =>
              cases h
              intro hmem
              rcases List.mem_cons.mp hmem with habs | hmem2
              · exact FsEvent.noConfusion habs
              · rcases List.mem_append.mp hmem2 with hmem3 | hmem3
                · exact hg hmem3
                · exact hc hmem3
            | ok outPaths =>
              cases h
              intro hmem
              rcases List.mem_cons.mp hmem with habs | hmem2
              · exact FsEvent.noConfusion habs
              · rcases List.mem_append.mp hmem2 with hmem3 | hmem3
                · exact hg hmem3
                · exact hc hmem3

/-- C7 (amended): the assembly is all-or-nothing — a success result
implies every provider call and every compositing call that was issued
succeeded, so a failed page can never be part of a reported success —
and on failure the whole call errors while the partially created
output directory is NOT cleaned up: no run ever performs a directory
removal.  The original claim's best-effort cleanup is refuted by
`C7_counterexample`. -/
theorem C7_failure_aborts_without_cleanup (env : PipelineEnv) (text : List Char)
    (res : Except PyErr (List (List Char) × List Char × List Char)) (evs : List FsEvent)
    (h : process_text env text = (res, evs)) :
    (∀ p, FsEvent.removeTree p ∉ evs) ∧
    (∀ paths outDir title, res = .ok (paths, outDir, title) →
      (∀ m p n t j, FsEvent.callGenerateImage m p n t j ∈ evs →
        env.generateImageFn m p n t j ≠ none) ∧
      (∀ ip tx op, FsEvent.callAddText ip tx op ∈ evs →
        env.compositeFails ip tx op = false)) := by
  refine ⟨fun p => process_text_no_removeTree env text res evs h p, ?_⟩
  intro paths outDir title hres
  subst hres
  obtain ⟨t, s, m, ps, ti, st, cs, ipn, gps, genEvs, compEvs,
    hex, hti, hst, hseg, hgen, hcomp, htitle, houtDir, hevs⟩ :=
    process_text_ok_spec env text paths outDir title evs h
  subst hevs
  constructor
  · intro m2 p n t2 j hmem
    rcases List.mem_cons.mp hmem with habs | hmem2
    · exact FsEvent.noConfusion habs
    · rcases List.mem_append.mp hmem2 with hmem3 | hmem3
      · exact genLoop_ok_calls env title ipn 0 gps genEvs hgen m2 p n t2 j hmem3
      · have hno := compositeLoop_no_genImage env outDir (cs.zip gps) 0 m2 p n t2 j
        rw [hcomp] at hno
        exact absurd hmem3 hno
  · intro ip tx op hmem
    rcases List.mem_cons.mp hmem with habs | hmem2
    · exact FsEvent.noConfusion habs
    · rcases List.mem_append.mp hmem2 with hmem3 | hmem3
      · have hno := genLoop_no_addText env title ipn 0 ip tx op
        rw [hgen] at hno
        exact absurd hmem3 hno
      · exact compositeLoop_ok_calls env outDir (cs.zip gps) 0 paths compEvs hcomp ip tx op hmem3

/-- Counterexample for C7 as stated: a provider failure on the only
page aborts the whole call after the output directory was created, and
the trace contains no directory removal — the partially created
directory is left behind, not cleaned up. -/
theorem C7_counterexample :
    process_text envFailSample emptyStoryText =
      (.error .providerError,
        [FsEvent.mkdirP "static/storybooks/T_17".toList,
         FsEvent.callGenerateImage "prompthero/openjourney".toList
           (enrich [] (Json.str ['p'])) [] ['T'] 0]) ∧
    (∀ q, FsEvent.removeTree q ∉
      [FsEvent.mkdirP "static/storybooks/T_17".toList,
       FsEvent.callGenerateImage "prompthero/openjourney".toList
         (enrich [] (Json.str ['p'])) [] ['T'] 0]) := by
  refine ⟨rfl, ?_⟩
  intro q hq
  rcases List.mem_cons.mp hq with habs | hq2
  · exact FsEvent.noConfusion habs
  · rcases List.mem_cons.mp hq2 with habs | hq3
    · exact FsEvent.noConfusion habs
    · simp at hq3

/-- Witness for C7: applying the theorem to a concrete failing run. -/
theorem C7_failure_aborts_without_cleanup_witness :
    (∀ p, FsEvent.removeTree p ∉ (process_text envFailSample emptyStoryText).2) ∧
    (∀ paths outDir title,
      (process_text envFailSample emptyStoryText).1 = .ok (paths, outDir, title) →
      (∀ m p n t j, FsEvent.callGenerateImage m p n t j ∈
          (process_text envFailSample emptyStoryText).2 →
        envFailSample.generateImageFn m p n t j ≠ none) ∧
      (∀ ip tx op, FsEvent.callAddText ip tx op ∈
          (process_text envFailSample emptyStoryText).2 →
        envFailSample.compositeFails ip tx op = false)) :=
  C7_failure_aborts_without_cleanup envFailSample emptyStoryText
    (process_text envFailSample emptyStoryText).1
    (process_text envFailSample emptyStoryText).2 rfl

/-- C8: a successful `process_text` run returns one rendered image path
per segmented chunk — the path count equals the page count
`ceil(S / 3)` of the parsed narrative — and path `k` carries the
deterministic index-`k` file name under the output directory, so the
manifest is strictly increasing by page index, in chunk order. -/
theorem C8_manifest_ordered (env : PipelineEnv) (text : List Char)
    (paths : List (List Char)) (outDir title : List Char) (evs : List FsEvent)
    (h : process_text env text = (.ok (paths, outDir, title), evs)) :
    ∃ t s m ps st, extract_story_elements text = .ok (t, s, m, ps) ∧
      pyAsStr s = .ok st ∧
      paths.length = ((pySplit st dotSpace).length + 2) / 3 ∧
      ∀ k, k < paths.length → paths[k]? = some (outDir ++ '/' :: imageNewName k) := by
  obtain ⟨t, s, m, ps, ti, st, cs, ipn, gps, genEvs, compEvs,
    hex, hti, hst, hseg, hgen, hcomp, _htitle, _houtDir, _hevs⟩ :=
    process_text_ok_spec env text paths outDir title evs h
  obtain ⟨hcsl, hipnl⟩ := segmentPages_ok_shape (pySplit st dotSpace) ps cs ipn hseg
  have hgl : gps.length = ipn.length := genLoop_ok_length env title ipn 0 gps genEvs hgen
  obtain ⟨hpl, hform⟩ := compositeLoop_ok_paths env outDir (cs.zip gps) 0 paths compEvs hcomp
  have hzip : (cs.zip gps).length = min cs.length gps.length := List.length_zip cs gps
  refine ⟨t, s, m, ps, st, hex, hst, by omega, ?_⟩
  intro k hk
  have := hform k hk
  simpa using this

/-- A full example document embedded after prose, with a five-sentence
narrative and two prompts. -/
def exampleDocText : List Char :=
  "Sure! Here is the story: ".toList ++ lb ::
    ("\"title\": \"t\", \"story\": \"A cat woke up. It stretched. It yawned. " ++
     "Then it ate breakfast. It played outside.\", \"moral\": \"m\", " ++
     "\"imagePrompts\": [\"a sleepy cat\", \"a cat eating\"]").toList ++ [rb]

set_option maxRecDepth 4000 in
/-- Witness for C8 on a concrete successful two-page run. -/
theorem C8_manifest_ordered_witness :
    ∃ t s m ps st, extract_story_elements exampleDocText = .ok (t, s, m, ps) ∧
      pyAsStr s = .ok st ∧
      (["static/storybooks/t_17/image_new_0.png".toList,
        "static/storybooks/t_17/image_new_1.png".toList] : List (List Char)).length =
        ((pySplit st dotSpace).length + 2) / 3 ∧
      ∀ k, k < (["static/storybooks/t_17/image_new_0.png".toList,
        "static/storybooks/t_17/image_new_1.png".toList] : List (List Char)).length →
        (["static/storybooks/t_17/image_new_0.png".toList,
          "static/storybooks/t_17/image_new_1.png".toList] : List (List Char))[k]? =
          some ("static/storybooks/t_17".toList ++ '/' :: imageNewName k) :=
  C8_manifest_ordered envOkSample exampleDocText
    ["static/storybooks/t_17/image_new_0.png".toList,
     "static/storybooks/t_17/image_new_1.png".toList]
    "static/storybooks/t_17".toList ['t']
    (process_text envOkSample exampleDocText).2 (by rfl)
